import Mathlib

/-!
Verification of the f2bs terminal dashboard core.

Shallow embedding of `src/main.rs` (the fail2ban TUI): the time resolver,
snapshot parser, snapshot fetcher, view projector and the modal part of the
interaction controller, together with theorems settling the frozen claims.

Conventions of the embedding:
* Rust `u64`/`i64` arithmetic is modelled on `Nat`/`Int` with explicit
  wrapping (`% 2^64`), saturation, or bound checks where the Rust code wraps,
  saturates or checks.
* The external process invocation (`fail2ban-client`) is an oracle
  `runner : List String → Except String String` (argument vector to stdout
  text or diagnostic message), and the external chrono datetime parsers are
  oracles `dtparse`/`ndtparse : String → String → Option Int`
  (format, text ↦ UTC epoch); `Utc::now().timestamp()` is a parameter `now`.
  All are bundled in `Env`.
* Rust's Unicode `char::is_whitespace` / `str::to_lowercase` are modelled by
  `Char.isWhitespace` / `Char.toLower` (they agree on ASCII, which is all the
  fail2ban output format uses).
-/

namespace F2BS

/-! ## Basic character/string utilities -/

/-- Embeds `2^64`, the wrap-around modulus of Rust `u64` arithmetic. -/
def u64Mod : Nat := 2 ^ 64

/-- Embeds `u64::MAX`. -/
def u64Max : Nat := 2 ^ 64 - 1

/-- Embeds `i64::MAX`. -/
def i64Max : Int := 2 ^ 63 - 1

/-- Embeds `i64::MIN`. -/
def i64Min : Int := -(2 ^ 63)

/-- Decimal value of a digit list (most significant first). -/
def digitsVal (l : List Char) : Nat :=
  l.foldl (fun a c => a * 10 + (c.toNat - 48)) 0

/-- Helper for `splitOnChar`: accumulates the current segment (reversed). -/
def splitOnCharAux (sep : Char) : List Char → List Char → List (List Char)
  | [], acc => [acc.reverse]
  | c :: cs, acc =>
    if c == sep then acc.reverse :: splitOnCharAux sep cs []
    else splitOnCharAux sep cs (c :: acc)

/-- Rust `str::split(sep)`: splits at every separator, keeping empty segments. -/
def splitOnChar (sep : Char) (l : List Char) : List (List Char) :=
  splitOnCharAux sep l []

/-- Helper for `splitWs`: accumulates the current token (reversed). -/
def splitWsAux : List Char → List Char → List (List Char)
  | [], acc => if acc.isEmpty then [] else [acc.reverse]
  | c :: cs, acc =>
    if c.isWhitespace then
      if acc.isEmpty then splitWsAux cs [] else acc.reverse :: splitWsAux cs []
    else splitWsAux cs (c :: acc)

/-- Rust `str::split_whitespace`: whitespace-separated tokens, no empties. -/
def splitWs (l : List Char) : List (List Char) :=
  splitWsAux l []

/-- Rust `str::contains(needle)`: contiguous-substring test. -/
def substrB (needle hay : List Char) : Bool :=
  (List.range (hay.length + 1)).any (fun i => needle == (hay.drop i).take needle.length)

/-- Rust `str::to_lowercase` (ASCII-faithful model). -/
def lowerStr (s : String) : String :=
  ⟨s.data.map Char.toLower⟩

/-- Rust `str::trim` on a character list. -/
def trimChars (l : List Char) : List Char :=
  ((l.dropWhile Char.isWhitespace).reverse.dropWhile Char.isWhitespace).reverse

/-- Rust `str::trim`. -/
def trimStr (s : String) : String :=
  ⟨trimChars s.data⟩

/-- The characters trimmed by `trim_matches(&[',', ';'])` in `parse_time_to_epoch`. -/
def isPunct (c : Char) : Bool := c == ',' || c == ';'

/-- Rust `str::trim_matches(&[',', ';'])` on a character list. -/
def trimPunct (l : List Char) : List Char :=
  ((l.dropWhile isPunct).reverse.dropWhile isPunct).reverse

/-- Nonempty all-digit list to its decimal value, else `none`. -/
def digitsToNat? (l : List Char) : Option Nat :=
  if l.isEmpty then none
  else if l.all Char.isDigit then some (digitsVal l) else none

/-- Rust `str::parse::<u64>()` (optional `+` sign, bound check). -/
def parseU64 (s : String) : Option Nat :=
  let core : List Char → Option Nat := fun l =>
    (digitsToNat? l).bind fun n => if n ≤ u64Max then some n else none
  match s.data with
  | '+' :: rest => core rest
  | l => core l

/-- Rust `str::parse::<u32>()` (optional `+` sign, bound check). -/
def parseU32 (s : String) : Option Nat :=
  let core : List Char → Option Nat := fun l =>
    (digitsToNat? l).bind fun n => if n ≤ 2 ^ 32 - 1 then some n else none
  match s.data with
  | '+' :: rest => core rest
  | l => core l

/-- Rust `str::parse::<i64>()` (optional sign, bound check). -/
def parseI64 (s : String) : Option Int :=
  match s.data with
  | '+' :: rest => (digitsToNat? rest).bind fun n =>
      if (n : Int) ≤ i64Max then some (n : Int) else none
  | '-' :: rest => (digitsToNat? rest).bind fun n =>
      if (n : Int) ≤ 2 ^ 63 then some (-(n : Int)) else none
  | l => (digitsToNat? l).bind fun n =>
      if (n : Int) ≤ i64Max then some (n : Int) else none

/-! ## IP address literals (Rust `str::parse::<IpAddr>()`) -/

/-- One dotted-decimal IPv4 octet: 1–3 digits, no leading zero, value ≤ 255. -/
def ipv4GroupB (l : List Char) : Bool :=
  !l.isEmpty && l.all Char.isDigit && decide (l.length ≤ 3) &&
    (match l with
     | '0' :: rest => rest.isEmpty
     | _ => true) &&
    decide (digitsVal l ≤ 255)

/-- IPv4 literal: exactly four valid octets separated by dots. -/
def isIPv4 (l : List Char) : Bool :=
  let gs := splitOnChar '.' l
  gs.length == 4 && gs.all ipv4GroupB

/-- Hexadecimal digit. -/
def isHexCh (c : Char) : Bool :=
  c.isDigit || ('a' ≤ c && c ≤ 'f') || ('A' ≤ c && c ≤ 'F')

/-- One IPv6 group: 1–4 hex digits. -/
def ipv6GroupB (l : List Char) : Bool :=
  !l.isEmpty && decide (l.length ≤ 4) && l.all isHexCh

/-- Splits at the first `::`, if any. -/
def splitDoubleColon : List Char → Option (List Char × List Char)
  | [] => none
  | [_] => none
  | a :: b :: rest =>
    if a == ':' && b == ':' then some ([], rest)
    else
      match splitDoubleColon (b :: rest) with
      | some (x, y) => some (a :: x, y)
      | none => none

/-- Whether the list contains `::`. -/
def hasDoubleColon (l : List Char) : Bool :=
  (splitDoubleColon l).isSome

/-- Number of 16-bit groups denoted by colon-separated parts; the final part
may be an embedded IPv4 (two groups) when `allowIPv4` is set. -/
def ipv6PartsCount (allowIPv4 : Bool) : List (List Char) → Option Nat
  | [] => some 0
  | [p] =>
    if ipv6GroupB p then some 1
    else if allowIPv4 && isIPv4 p then some 2 else none
  | p :: rest =>
    if ipv6GroupB p then (ipv6PartsCount allowIPv4 rest).map (· + 1) else none

/-- Group count of one side of a `::` split (empty side = zero groups). -/
def ipv6SideCount (l : List Char) (allowIPv4 : Bool) : Option Nat :=
  if l.isEmpty then some 0 else ipv6PartsCount allowIPv4 (splitOnChar ':' l)

/-- IPv6 literal: 8 groups, or at most 7 around a single `::`. -/
def isIPv6 (l : List Char) : Bool :=
  match splitDoubleColon l with
  | none => !l.isEmpty && ipv6SideCount l true == some 8
  | some (lft, rgt) =>
    if hasDoubleColon rgt then false
    else
      match ipv6SideCount lft false, ipv6SideCount rgt true with
      | some a, some b => decide (a + b ≤ 7)
      | _, _ => false

/-- Rust `token.parse::<IpAddr>().is_ok()`. -/
def isIpAddr (s : String) : Bool :=
  isIPv4 s.data || isIPv6 s.data

/-! ## Data model (`TimeValue`, `IpEntry`, `JailStatus`, UI state) -/

/-- A jail setting as raw text plus its value in seconds when numeric. -/
structure TimeValue where
  raw : String
  seconds : Option Nat
deriving DecidableEq, Repr

/-- One banned address with its resolved expiry epoch and raw time text. -/
structure IpEntry where
  ip : String
  end_epoch : Option Int
  time_raw : Option String
deriving DecidableEq, Repr

/-- One jail's state in a snapshot. -/
structure JailStatus where
  name : String
  ips : List IpEntry
  bantime : TimeValue
  findtime : TimeValue
  maxretry : Option Nat
  currently_banned : Option Nat
  total_banned : Option Nat
deriving DecidableEq, Repr

/-- The two sort modes of the ban-entry view. -/
inductive SortMode where
  | Ip
  | TimeLeft
deriving DecidableEq, Repr

/-- The modal variants. -/
inductive Modal where
  | UnbanIp (jail ip : String)
  | UnbanAll (jail : String) (step : Nat)
  | BanIp (jail input : String) (error : Option String)
deriving DecidableEq, Repr

/-- Panel focus. -/
inductive Focus where
  | Jails
  | Ips
deriving DecidableEq, Repr

/-- The mutable UI state (`UiState` in the source). `jail_sel`/`ip_sel` model
the `ListState` selections; the `Instant`/`Duration` timer fields and the
layout `Rect` caches are rendering/timing plumbing outside the embedding. -/
structure UiState where
  jails : List JailStatus
  jail_sel : Option Nat
  ip_sel : Option Nat
  focus : Focus
  status : String
  modal : Option Modal
  search_query : String
  search_mode : Bool
  sort_mode : SortMode
  autorefresh : Bool
deriving DecidableEq, Repr

/-- The external collaborators: the `fail2ban-client` process oracle, the two
chrono datetime parsers (timezone-aware `DateTime::parse_from_str` and
`NaiveDateTime::parse_from_str`, each given format and text and returning a
UTC epoch), and the current clock reading `Utc::now().timestamp()`. -/
structure Env where
  runner : List String → Except String String
  dtparse : String → String → Option Int
  ndtparse : String → String → Option Int
  now : Int

/-! ## TimeResolver -/

/-- Rust `u64 as i64`: two's-complement reinterpretation. -/
def u64CastI64 (b : Nat) : Int :=
  if b < 2 ^ 63 then (b : Int) else (b : Int) - 2 ^ 64

/-- Rust `i64::saturating_add`. -/
def satAddI64 (a b : Int) : Int :=
  let s := a + b
  if s > i64Max then i64Max else if s < i64Min then i64Min else s

/-- Embeds `resolve_end_epoch`: a parsed instant at/after now already denotes the
lift time; one before now denotes the ban start and the configured bantime is
added (saturating), falling back to the raw instant when bantime is unknown. -/
def resolve_end_epoch (now : Int) (epoch : Int) (bantime_secs : Option Nat) : Int :=
  if epoch ≥ now then epoch
  else
    match bantime_secs with
    | some b => satAddI64 epoch (u64CastI64 b)
    | none => epoch

/-- Embeds `looks_like_date`: `YYYY-MM-DD` shape. -/
def looks_like_date (s : String) : Bool :=
  let l := s.data
  l.length == 10 && l.getD 4 ' ' == '-' && l.getD 7 ' ' == '-' &&
    (l.enum.all fun p => p.1 == 4 || p.1 == 7 || p.2.isDigit)

/-- Embeds `looks_like_time`: `HH:MM:SS` shape. -/
def looks_like_time (s : String) : Bool :=
  let l := s.data
  l.length == 8 && l.getD 2 ' ' == ':' && l.getD 5 ' ' == ':' &&
    (l.filter (fun c => c ≠ ':')).all Char.isDigit

/-- Embeds `looks_like_tz`: signed numeric UTC offset (colons allowed). -/
def looks_like_tz (s : String) : Bool :=
  match s.data with
  | [] => false
  | c :: rest =>
    decide (s.length ≥ 5) && (c == '+' || c == '-') &&
      rest.all (fun c => c.isDigit || c == ':')

/-- Loop of `extract_last_datetime`: slides over whitespace-separated fields
remembering the last date+time(+offset) match. -/
def eldGo : List String → Option (String × String × Option String) →
    Option (String × String × Option String)
  | d :: t :: rest, acc =>
    let acc' :=
      if looks_like_date d && looks_like_time t then
        some (d, t,
          match rest with
          | z :: _ => if looks_like_tz z then some z else none
          | [] => none)
      else acc
    eldGo (t :: rest) acc'
  | _, acc => acc

/-- Embeds `extract_last_datetime`: the last `YYYY-MM-DD HH:MM:SS [±offset]` field
run in the whitespace-separated input. -/
def extract_last_datetime (l : List Char) : Option (String × String × Option String) :=
  eldGo ((splitWs l).map fun t => (⟨t⟩ : String)) none

/-- The fixed chrono format candidates tried on the whole cleaned token text. -/
def timeFormatCandidates : List String :=
  ["%Y-%m-%d %H:%M:%S %z", "%Y-%m-%d %H:%M:%S%z", "%Y-%m-%dT%H:%M:%S%z",
   "%Y-%m-%dT%H:%M:%SZ"]

/-- Tail of `parse_time_to_epoch` after the `extract_last_datetime` attempt:
the candidate-format loop, then a naive (assume-UTC) parse. -/
def parse_time_fallback (env : Env) (cleaned : String) (bt : Option Nat) : Option Int :=
  match timeFormatCandidates.findSome? (fun fmt => env.dtparse fmt cleaned) with
  | some epoch => some (resolve_end_epoch env.now epoch bt)
  | none =>
    match env.ndtparse "%Y-%m-%d %H:%M:%S" cleaned with
    | some epoch => some (resolve_end_epoch env.now epoch bt)
    | none => none

/-- Embeds `parse_time_to_epoch`: trims, treats an all-digit token as an epoch
instant (failing on i64 overflow), otherwise tries the extracted datetime
fields and then the fallback formats. -/
def parse_time_to_epoch (env : Env) (time_str : String) (bantime_secs : Option Nat) :
    Option Int :=
  let cleaned := trimPunct (trimChars time_str.data)
  if cleaned.isEmpty then none
  else if cleaned.all Char.isDigit then
    match parseI64 ⟨cleaned⟩ with
    | none => none
    | some epoch => some (resolve_end_epoch env.now epoch bantime_secs)
  else
    match extract_last_datetime cleaned with
    | some (date, time, some tz) =>
      match env.dtparse "%Y-%m-%d %H:%M:%S %z" (date ++ " " ++ time ++ " " ++ tz) with
      | some epoch => some (resolve_end_epoch env.now epoch bantime_secs)
      | none => parse_time_fallback env ⟨cleaned⟩ bantime_secs
    | some (date, time, none) =>
      match env.ndtparse "%Y-%m-%d %H:%M:%S" (date ++ " " ++ time) with
      | some epoch => some (resolve_end_epoch env.now epoch bantime_secs)
      | none => parse_time_fallback env ⟨cleaned⟩ bantime_secs
    | none => parse_time_fallback env ⟨cleaned⟩ bantime_secs

/-- Loop of `parse_duration_string` over the characters: accumulates the
pending number and adds it (wrapping, as Rust release-mode `u64`) when a unit
letter is seen; a trailing number is added as bare seconds; the result exists
only if some unit letter was consumed. -/
def pdsGo : List Char → Nat → Option Nat → Bool → Option Nat
  | [], total, num, has_unit =>
    let total' :=
      match num with
      | some v => (total + v) % u64Mod
      | none => total
    if has_unit then some total' else none
  | c :: cs, total, num, has_unit =>
    if c.isDigit then
      pdsGo cs total (some ((num.getD 0 * 10 + (c.toNat - 48)) % u64Mod)) has_unit
    else
      match num with
      | none => pdsGo cs total none has_unit
      | some v =>
        match c with
        | 'w' | 'W' => pdsGo cs ((total + ((v * 7) % u64Mod) * 86400 % u64Mod) % u64Mod) none true
        | 'd' | 'D' => pdsGo cs ((total + (v * 86400) % u64Mod) % u64Mod) none true
        | 'h' | 'H' => pdsGo cs ((total + (v * 3600) % u64Mod) % u64Mod) none true
        | 'm' | 'M' => pdsGo cs ((total + (v * 60) % u64Mod) % u64Mod) none true
        | 's' | 'S' => pdsGo cs ((total + v) % u64Mod) none true
        | _ => pdsGo cs total none has_unit

/-- Embeds `parse_duration_string`. -/
def parse_duration_string (input : String) : Option Nat :=
  pdsGo input.data 0 none false

/-- Embeds `remaining_seconds`: seconds until a known expiry, clamped at zero; the
positive difference is the Rust `(end_epoch - now) as u64` (wrap modelled). -/
def remaining_seconds (now : Int) (end_epoch : Option Int) : Option Nat :=
  match end_epoch with
  | none => none
  | some e => if e ≤ now then some 0 else some ((e - now).emod (2 ^ 64)).toNat

/-! ## SnapshotParser -/

/-- Tail after the first occurrence of `pat` (Rust `split_once` second
component / `find` plus slice). -/
def findTail (pat : List Char) : List Char → Option (List Char)
  | [] => if pat.isEmpty then some [] else none
  | c :: cs =>
    if pat == (c :: cs).take pat.length then some ((c :: cs).drop pat.length)
    else findTail pat cs

/-- Rust `str::lines()`: split on `\n`, drop a final empty segment, strip a
trailing `\r` per line. -/
def linesOf (s : String) : List String :=
  let segs := splitOnChar '\n' s.data
  let segs := if segs.getLast? = some [] then segs.dropLast else segs
  segs.map fun l => ⟨if l.getLast? = some '\r' then l.dropLast else l⟩

/-- Embeds `parse_jail_list`: the comma-separated names after the `Jail list:`
marker, trimmed, empties dropped. -/
def parse_jail_list (output : String) : List String :=
  jlGo (linesOf output)
where
  /-- Scans the lines for the first one containing the marker. -/
  jlGo : List String → List String
  | [] => []
  | line :: rest =>
    match findTail "Jail list:".data line.data with
    | some tail =>
      let tail := trimChars tail
      if tail.isEmpty then []
      else
        ((splitOnChar ',' tail).map trimChars).filterMap fun j =>
          if j.isEmpty then none else some (⟨j⟩ : String)
    | none => jlGo rest

/-- Loop of `extract_ips`: keeps tokens that parse as IP literals, first
occurrence only (the `HashSet` is modelled by the list of seen tokens). -/
def eipGo : List (List Char) → List String → List String
  | [], _ => []
  | t :: ts, seen =>
    let s : String := ⟨t⟩
    if isIpAddr s && !seen.contains s then s :: eipGo ts (s :: seen)
    else eipGo ts seen

/-- Embeds `extract_ips`: commas become spaces, whitespace tokens that are IP
literals are kept, de-duplicated in first-seen order. -/
def extract_ips (text : String) : List String :=
  eipGo (splitWs ((text.data).map fun c => if c == ',' then ' ' else c)) []

/-- Embeds `parse_banned_ips`: the IPs after the `Banned IP list:` marker. -/
def parse_banned_ips (output : String) : List String :=
  match findTail "Banned IP list:".data output.data with
  | some tail => extract_ips ⟨tail⟩
  | none => []

/-- Embeds `parse_status_counts`: scans lines for the `Currently banned:` and
`Total banned:` markers and parses the trailing integers. -/
def parse_status_counts (output : String) : Option Nat × Option Nat :=
  pscGo (linesOf output) none none
where
  /-- Line loop carrying the two accumulators. -/
  pscGo : List String → Option Nat → Option Nat → Option Nat × Option Nat
  | [], current, total => (current, total)
  | line :: rest, current, total =>
    match findTail "Currently banned:".data line.data with
    | some tail => pscGo rest (parseU32 ⟨trimChars tail⟩) total
    | none =>
      match findTail "Total banned:".data line.data with
      | some tail => pscGo rest current (parseU32 ⟨trimChars tail⟩)
      | none => pscGo rest current total

/-- Embeds `parse_time_value`: trimmed raw text plus its numeric value when the
whole text parses as `u64`; empty text becomes the explicit `n/a` value. -/
def parse_time_value (output : String) : TimeValue :=
  let raw := trimStr output
  if raw.isEmpty then { raw := "n/a", seconds := none }
  else { raw := raw, seconds := parseU64 raw }

/-- Embeds `parse_maxretry`. -/
def parse_maxretry (output : String) : Option Nat :=
  parseU32 (trimStr output)

/-- Builds one `IpEntry` from an ip and its accumulated time tokens. -/
def mkIpEntry (env : Env) (bt : Option Nat) (ip : String) (tts : List (List Char)) :
    IpEntry :=
  let time_str : String := String.intercalate " " (tts.map fun t => (⟨t⟩ : String))
  { ip := ip
    end_epoch := parse_time_to_epoch env time_str bt
    time_raw := if time_str = "" then none else some time_str }

/-- Loop of `parse_banip_with_time`: an IP token starts a new entry, non-IP
tokens accumulate as the current entry's time text. -/
def pbwtGo (env : Env) (bt : Option Nat) :
    List (List Char) → Option String → List (List Char) → List IpEntry
  | [], none, _ => []
  | [], some ip, tts => [mkIpEntry env bt ip tts]
  | t :: ts, cur, tts =>
    if isIpAddr ⟨t⟩ then
      match cur with
      | some ip => mkIpEntry env bt ip tts :: pbwtGo env bt ts (some ⟨t⟩) []
      | none => pbwtGo env bt ts (some ⟨t⟩) []
    else
      match cur with
      | some ip => pbwtGo env bt ts (some ip) (tts ++ [t])
      | none => pbwtGo env bt ts none tts

/-- Embeds `parse_banip_with_time`. -/
def parse_banip_with_time (env : Env) (output : String) (bantime_secs : Option Nat) :
    List IpEntry :=
  pbwtGo env bantime_secs (splitWs output.data) none []

/-- Embeds `ips_from_status`: fallback entries (no expiry) from the plain status
output's banned list. -/
def ips_from_status (output : String) : List IpEntry :=
  (parse_banned_ips output).map fun ip =>
    { ip := ip, end_epoch := none, time_raw := none }

/-! ## Orderings used by the Rust `sort_by`/`sort_by_key` calls -/

/-- Embeds `Ord::cmp` on natural numbers (Rust integer `cmp`). -/
def cmpNat (a b : Nat) : Ordering :=
  if a < b then .lt else if b < a then .gt else .eq

/-- Embeds `Ord::cmp` on strings as character lists (Rust byte-lexicographic order;
UTF-8 byte order coincides with codepoint order). -/
def cmpChars : List Char → List Char → Ordering
  | [], [] => .eq
  | [], _ :: _ => .lt
  | _ :: _, [] => .gt
  | a :: xs, b :: ys => (cmpNat a.toNat b.toNat).then (cmpChars xs ys)

/-- The jail comparator of `fetch_status`:
`b.ips.len().cmp(&a.ips.len()).then_with(|| a.name.cmp(&b.name))`. -/
def jailCmp (a b : JailStatus) : Ordering :=
  (cmpNat b.ips.length a.ips.length).then (cmpChars a.name.data b.name.data)

/-- The (total, transitive) relation a Rust stable `sort_by` with comparator
`jailCmp` sorts by: comparator result not `Greater`. -/
def jailRel (a b : JailStatus) : Prop :=
  jailCmp a b ≠ .gt

instance : DecidableRel jailRel := fun a b => by
  unfold jailRel; infer_instance

/-! ## SnapshotFetcher -/

/-- Per-jail fetch: the `status <jail>` invocation is propagated as a
failure, while `bantime`, `findtime`, `maxretry` and `banip --with-time`
failures degrade to defaults / the fallback address list. -/
def fetch_jail (env : Env) (jail : String) : Except String JailStatus :=
  match env.runner ["status", jail] with
  | .error e => .error e
  | .ok jail_status =>
    let counts := parse_status_counts jail_status
    let bantime :=
      match env.runner ["get", jail, "bantime"] with
      | .ok v => parse_time_value v
      | .error _ => { raw := "n/a", seconds := none }
    let findtime :=
      match env.runner ["get", jail, "findtime"] with
      | .ok v => parse_time_value v
      | .error _ => { raw := "n/a", seconds := none }
    let maxretry :=
      match env.runner ["get", jail, "maxretry"] with
      | .ok v => parse_maxretry v
      | .error _ => none
    let ips :=
      match env.runner ["get", jail, "banip", "--with-time"] with
      | .ok out => parse_banip_with_time env out bantime.seconds
      | .error _ => ips_from_status jail_status
    .ok
      { name := jail, ips := ips, bantime := bantime, findtime := findtime
        maxretry := maxretry, currently_banned := counts.1, total_banned := counts.2 }

/-- The per-jail loop of `fetch_status` (the `?` on `status <jail>` aborts
the whole refresh). -/
def fetchJails (env : Env) : List String → Except String (List JailStatus)
  | [] => .ok []
  | j :: rest =>
    match fetch_jail env j with
    | .error e => .error e
    | .ok js =>
      match fetchJails env rest with
      | .error e => .error e
      | .ok more => .ok (js :: more)

/-- Embeds `fetch_status`: top-level `status`, per-jail assembly, then the stable
sort by (ban count descending, name ascending). -/
def fetch_status (env : Env) : Except String (List JailStatus) :=
  match env.runner ["status"] with
  | .error e => .error e
  | .ok out =>
    match fetchJails env (parse_jail_list out) with
    | .error e => .error e
    | .ok results => .ok (List.insertionSort jailRel results)

/-! ## ViewProjector -/

/-- The filter predicate of `current_ip_view`: empty (trimmed, lowercased)
query matches everything, otherwise case-insensitive substring test on the
address. -/
def ipMatches (q : String) (e : IpEntry) : Bool :=
  let query := lowerStr (trimStr q)
  if query.isEmpty then true else substrB query.data (lowerStr e.ip).data

/-- The relation sorted by in `SortMode::Ip`: comparator
`a.ip.cmp(&b.ip)` not `Greater`. -/
def ipRel (a b : IpEntry) : Prop :=
  cmpChars a.ip.data b.ip.data ≠ .gt

instance : DecidableRel ipRel := fun a b => by
  unfold ipRel; infer_instance

/-- The `sort_by_key` key of `SortMode::TimeLeft`:
`remaining_seconds(end_epoch).unwrap_or(u64::MAX)`. -/
def keyTL (now : Int) (e : IpEntry) : Nat :=
  (remaining_seconds now e.end_epoch).getD u64Max

/-- The relation sorted by in `SortMode::TimeLeft`. -/
def tlRel (now : Int) (a b : IpEntry) : Prop :=
  keyTL now a ≤ keyTL now b

instance (now : Int) : DecidableRel (tlRel now) := fun a b => by
  unfold tlRel; infer_instance

/-- Embeds `current_ip_view`: filter by the trimmed lowercased query, then stable
sort by the active sort mode. -/
def current_ip_view (now : Int) (s : UiState) (jail : JailStatus) : List IpEntry :=
  let view := jail.ips.filter (ipMatches s.search_query)
  match s.sort_mode with
  | .Ip => List.insertionSort ipRel view
  | .TimeLeft => List.insertionSort (tlRel now) view

/-! ## InteractionController -/

/-- Embeds `UiState::refresh`: replace the snapshot and reset selection on success,
keep everything but the status line on failure. -/
def refresh (env : Env) (s : UiState) : UiState :=
  match fetch_status env with
  | .ok js =>
    if js.isEmpty then
      { s with jails := js, jail_sel := none, ip_sel := none
               status := "No jails reported by fail2ban-client" }
    else
      { s with jails := js, jail_sel := some 0, ip_sel := some 0
               status := "Refreshed" }
  | .error e => { s with status := "Refresh failed: " ++ e }

/-- Structural engine of `chunksOf`: the fuel (first list argument of the
recursion) bounds the number of chunks; callers pass the list length, so the
fuel never runs out. -/
def chunksGo (n : Nat) : Nat → List α → List (List α)
  | _, [] => []
  | 0, _ :: _ => []
  | fuel + 1, x :: xs => (x :: xs.take (n - 1)) :: chunksGo n fuel (xs.drop (n - 1))

/-- Rust `slice::chunks(n)` for `n ≥ 1`: consecutive chunks of `n` elements,
the last possibly shorter. -/
def chunksOf (n : Nat) (l : List α) : List (List α) :=
  chunksGo n l.length l

/-- Loop of `unban_all_in_jail` over the 50-address chunks: issues one
command per chunk, accumulating the number of addresses already carried by
successful commands, and stops at the first failure. Returns the result and
the list of issued command vectors. -/
def uaGo (env : Env) (jail : String) :
    List (List IpEntry) → Nat → Except String Nat × List (List String)
  | [], total => (.ok total, [])
  | ch :: rest, total =>
    let cmd := ["set", jail, "unbanip"] ++ ch.map (fun e => e.ip)
    match env.runner cmd with
    | .error e => (.error e, [cmd])
    | .ok _ =>
      let r := uaGo env jail rest (total + ch.length)
      (r.1, cmd :: r.2)

/-- Embeds `unban_all_in_jail`: batched unban of the stored (unfiltered) ban list
of the named jail, 50 addresses per command. -/
def unban_all_in_jail (env : Env) (s : UiState) (jail : String) :
    Except String Nat × List (List String) :=
  match s.jails.find? (fun j => j.name == jail) with
  | none => (.error "jail not found", [])
  | some js =>
    if js.ips.isEmpty then (.ok 0, [])
    else uaGo env jail (chunksOf 50 js.ips) 0

/-- The key codes the modal handler distinguishes. -/
inductive KeyCode where
  | char (c : Char)
  | enter
  | esc
  | backspace
  | other
deriving DecidableEq, Repr

/-- A key press: code plus the CONTROL modifier. -/
structure KeyEvent where
  code : KeyCode
  ctrl : Bool
deriving DecidableEq, Repr

/-- Rust `String::pop`. -/
def strPop (s : String) : String :=
  ⟨s.data.dropLast⟩

/-- Embeds `handle_modal_key`: key dispatch while a modal is open. Returns the new
state together with the mutation (`set …`) command vectors issued directly by
this handler (the query commands of a triggered refresh go through
`fetch_status` and are never `set` commands). -/
def handle_modal_key (env : Env) (key : KeyEvent) (s : UiState) (modal : Modal) :
    UiState × List (List String) :=
  match modal with
  | .BanIp jail input _err =>
    match key.code with
    | .esc => ({ s with modal := none, status := "Action canceled" }, [])
    | .backspace =>
      ({ s with modal := some (.BanIp jail (strPop input) none) }, [])
    | .char c =>
      let input' := if key.ctrl then input else input.push c
      ({ s with modal := some (.BanIp jail input' none) }, [])
    | .enter =>
      let ip := trimStr input
      if !isIpAddr ip then
        ({ s with modal := some (.BanIp jail input (some "Invalid IP address")) }, [])
      else
        match env.runner ["set", jail, "banip", ip] with
        | .ok _ =>
          (refresh env
            { s with status := "Banned " ++ ip ++ " in " ++ jail, modal := none },
           [["set", jail, "banip", ip]])
        | .error e =>
          ({ s with modal := some (.BanIp jail input (some ("Ban failed: " ++ e))) },
           [["set", jail, "banip", ip]])
    | .other => ({ s with modal := some (.BanIp jail input none) }, [])
  | .UnbanIp jail ip =>
    match key.code with
    | .char 'y' | .char 'Y' | .enter =>
      match env.runner ["set", jail, "unbanip", ip] with
      | .ok _ =>
        (refresh env
          { s with status := "Unbanned " ++ ip ++ " from " ++ jail, modal := none },
         [["set", jail, "unbanip", ip]])
      | .error e =>
        ({ s with status := "Unban failed for " ++ ip ++ ": " ++ e, modal := none },
         [["set", jail, "unbanip", ip]])
    | .char 'n' | .char 'N' | .esc =>
      ({ s with modal := none, status := "Action canceled" }, [])
    | _ => (s, [])
  | .UnbanAll jail step =>
    match key.code with
    | .char 'y' | .char 'Y' | .enter =>
      if step = 1 then
        ({ s with modal := some (.UnbanAll jail 2)
                  status := "Second confirmation required" }, [])
      else
        match unban_all_in_jail env s jail with
        | (.ok count, cmds) =>
          (refresh env
            { s with status := "Unbanned " ++ toString count ++ " IPs from " ++ jail
                     modal := none },
           cmds)
        | (.error e, cmds) =>
          ({ s with status := "Unban all failed for " ++ jail ++ ": " ++ e
                    modal := none },
           cmds)
    | .char 'n' | .char 'N' | .esc =>
      ({ s with modal := none, status := "Action canceled" }, [])
    | _ => (s, [])

/-! ## Helper lemmas: `parse_duration_string` -/

/-- Seconds denoted by one duration unit letter. -/
def unitSeconds : Char → Option Nat
  | 'w' | 'W' => some 604800
  | 'd' | 'D' => some 86400
  | 'h' | 'H' => some 3600
  | 'm' | 'M' => some 60
  | 's' | 'S' => some 1
  | _ => none

/-- The text of a run of `<digits><unit>` groups followed by trailing digits. -/
def groupChars (gs : List (List Char × Char)) (tr : List Char) : List Char :=
  gs.foldr (fun p acc => p.1 ++ p.2 :: acc) tr

/-- Mathematical value in seconds of a run of `<digits><unit>` groups. -/
def groupsSum (gs : List (List Char × Char)) : Nat :=
  (gs.map fun p => digitsVal p.1 * (unitSeconds p.2).getD 0).sum

/-- The digit accumulator of `pdsGo` (wrapping at each step). -/
def pdsFold (a : Nat) (ds : List Char) : Nat :=
  ds.foldl (fun x c => (x * 10 + (c.toNat - 48)) % u64Mod) a

def envBoom : Env :=
  { runner := fun _ => .error "boom"
    dtparse := fun _ _ => none
    ndtparse := fun _ _ => none
    now := 0 }

def uiEmpty : UiState :=
  { jails := []
    jail_sel := none
    ip_sel := none
    focus := .Jails
    status := ""
    modal := none
    search_query := ""
    search_mode := false
    sort_mode := .Ip
    autorefresh := false }

def envNow100 : Env :=
  { runner := fun _ => .error ""
    dtparse := fun _ _ => none
    ndtparse := fun _ _ => none
    now := 100 }

/-! ## Claim C6 -/

def entry1a2 : IpEntry := { ip := "1a2", end_epoch := none, time_raw := none }

def navalue : TimeValue := { raw := "n/a", seconds := none }

def jailA : JailStatus :=
  { name := "a", ips := [entry1a2], bantime := navalue, findtime := navalue
    maxretry := none, currently_banned := none, total_banned := none }

def uiSearch : UiState := { uiEmpty with search_query := " a " }

/-! ## Claim C7 -/

/-- The claim's notion of remaining time: `max 0 (expiry - now)`, unknown
when no expiry was resolved. -/
def claimRemaining (now : Int) (e : IpEntry) : Option Int :=
  e.end_epoch.map fun x => max 0 (x - now)

/-- The claim's ordering on adjacent projection entries under `ByTimeLeft`:
known remaining times are non-decreasing and no unknown-remaining entry
precedes a known one. -/
def unknownLast (now : Int) (a b : IpEntry) : Prop :=
  match claimRemaining now a, claimRemaining now b with
  | some ra, some rb => ra ≤ rb
  | none, some _ => False
  | _, _ => True

def entryT1 : IpEntry := { ip := "b1", end_epoch := some 160, time_raw := none }

def entryT2 : IpEntry := { ip := "b2", end_epoch := some 50, time_raw := none }

def entryT3 : IpEntry := { ip := "b3", end_epoch := none, time_raw := none }

def jailT : JailStatus :=
  { name := "t", ips := [entryT1, entryT2, entryT3], bantime := navalue
    findtime := navalue, maxretry := none, currently_banned := none
    total_banned := none }

def uiTime : UiState := { uiEmpty with sort_mode := SortMode.TimeLeft }

/-! ## Controller helper lemmas (`UnbanAll` confirmation) -/

/-- The keys the modal handler treats as confirmation. -/
def isConfirmKey (key : KeyEvent) : Prop :=
  key.code = KeyCode.char 'y' ∨ key.code = KeyCode.char 'Y' ∨
    key.code = KeyCode.enter

def jail51 : JailStatus :=
  { name := "j", ips := List.replicate 51 { ip := "1.2.3.4", end_epoch := none, time_raw := none }
    bantime := navalue, findtime := navalue, maxretry := none
    currently_banned := none, total_banned := none }

def ui51 : UiState := { uiEmpty with jails := [jail51] }

/-- A runner that accepts the first (53-argument) unban batch and rejects the
second. -/
def runner51 : List String → Except String String :=
  fun args => if args.length == 53 then .ok "" else .error "boom"

def env51 : Env :=
  { runner := runner51
    dtparse := fun _ _ => none
    ndtparse := fun _ _ => none
    now := 0 }

/-! ## Claim C1 -/

/-- The command vector of one unban batch. -/
def mkUnbanCmd (jail : String) (ch : List IpEntry) : List String :=
  ["set", jail, "unbanip"] ++ ch.map fun e => e.ip

/-- The full sequence of batch commands for a jail's ban list. -/
def batchCmds (jail : String) (ips : List IpEntry) : List (List String) :=
  (chunksOf 50 ips).map (mkUnbanCmd jail)

/-! ## Claim C9 -/

/-- The claim's jail ordering: ban count descending, ties broken by name
ascending (byte-lexicographic). -/
def jailOrd (a b : JailStatus) : Prop :=
  b.ips.length < a.ips.length ∨
    (a.ips.length = b.ips.length ∧ cmpChars a.name.data b.name.data ≠ .gt)

def runner9 : List String → Except String String
  | ["status"] => .ok "Jail list: b, a"
  | ["status", "a"] => .ok "Banned IP list: 9.9.9.9"
  | ["status", "b"] => .ok "Banned IP list: 1.2.3.4 5.6.7.8"
  | _ => .error "x"

def env9 : Env :=
  { runner := runner9
    dtparse := fun _ _ => none
    ndtparse := fun _ _ => none
    now := 0 }

def jail9b : JailStatus :=
  { name := "b"
    ips := [{ ip := "1.2.3.4", end_epoch := none, time_raw := none },
            { ip := "5.6.7.8", end_epoch := none, time_raw := none }]
    bantime := navalue, findtime := navalue, maxretry := none
    currently_banned := none, total_banned := none }

def jail9a : JailStatus :=
  { name := "a"
    ips := [{ ip := "9.9.9.9", end_epoch := none, time_raw := none }]
    bantime := navalue, findtime := navalue, maxretry := none
    currently_banned := none, total_banned := none }

def runner10 : List String → Except String String
  | ["status"] => .ok "Jail list: a, b"
  | ["status", "a"] => .ok ""
  | ["status", "b"] => .error "down"
  | _ => .error "nope"

def env10 : Env :=
  { runner := runner10
    dtparse := fun _ _ => none
    ndtparse := fun _ _ => none
    now := 0 }

/-! ## Theorems -/

example : isIpAddr "1.2.3.4" = true := by decide

example : isIpAddr "10.0.0.256" = false := by decide

example : isIpAddr "2024-01-15" = false := by decide

example : isIpAddr "10:30:45" = false := by decide

example : isIpAddr "::1" = true := by decide

example : isIpAddr "fe80::ffff:1.2.3.4" = true := by decide

example : isIpAddr "not-an-ip" = false := by decide

example : parse_duration_string "1d2h3m4s" = some 93784 := by decide

example : parse_duration_string "90" = none := by decide

example : parse_duration_string "abc" = none := by decide

example : parse_duration_string "1m30" = some 90 := by decide

theorem u64Mod_pos : 0 < u64Mod := by decide

theorem pdsGo_digits (ds : List Char) (hds : ∀ c ∈ ds, c.isDigit) :
    ∀ (rest : List Char) (total a : Nat) (h : Bool),
      pdsGo (ds ++ rest) total (some a) h = pdsGo rest total (some (pdsFold a ds)) h := by
  induction ds with
  | nil => intro rest total a h; simp [pdsFold]
  | cons c cs ih =>
    intro rest total a h
    have hc : c.isDigit := hds c (by simp)
    have hcs : ∀ x ∈ cs, x.isDigit := fun x hx => hds x (by simp [hx])
    have step : pdsGo ((c :: cs) ++ rest) total (some a) h =
        pdsGo (cs ++ rest) total (some ((a * 10 + (c.toNat - 48)) % u64Mod)) h := by
      show pdsGo (c :: (cs ++ rest)) total (some a) h = _
      simp [pdsGo, hc]
    rw [step]
    exact ih hcs rest total _ h

theorem pdsFold_mod (ds : List Char) :
    ∀ a : Nat, pdsFold (a % u64Mod) ds =
      (ds.foldl (fun x c => x * 10 + (c.toNat - 48)) a) % u64Mod := by
  induction ds with
  | nil => intro a; simp [pdsFold]
  | cons c cs ih =>
    intro a
    show pdsFold ((a % u64Mod * 10 + (c.toNat - 48)) % u64Mod) cs = _
    have h1 : (a % u64Mod * 10 + (c.toNat - 48)) % u64Mod =
        (a * 10 + (c.toNat - 48)) % u64Mod := by
      rw [Nat.add_mod, Nat.mod_mul_mod, ← Nat.add_mod]
    rw [h1, ih]
    rfl

theorem pdsFold_zero (ds : List Char) : pdsFold 0 ds = digitsVal ds % u64Mod := by
  have := pdsFold_mod ds 0
  simpa [digitsVal] using this

theorem pdsGo_none_some_zero (c : Char) (ds : List Char) (total : Nat) (h : Bool)
    (hc : c.isDigit) :
    pdsGo (c :: ds) total none h = pdsGo (c :: ds) total (some 0) h := by
  simp [pdsGo, hc]

theorem pdsGo_trailing (tr : List Char) (total : Nat) (h : Bool)
    (htr : ∀ c ∈ tr, c.isDigit) (htot : total < u64Mod) :
    pdsGo tr total none h =
      if h then some ((total + digitsVal tr) % u64Mod) else none := by
  cases tr with
  | nil =>
    have : (total + digitsVal ([] : List Char)) % u64Mod = total := by
      simp [digitsVal, Nat.mod_eq_of_lt htot]
    rw [this]
    rfl
  | cons c cs =>
    have hc : c.isDigit := htr c (by simp)
    rw [pdsGo_none_some_zero c cs total h hc]
    conv_lhs => rw [show (c :: cs) = (c :: cs) ++ [] from by simp]
    rw [pdsGo_digits (c :: cs) htr [] total 0 h, pdsFold_zero]
    show (if h then some ((total + digitsVal (c :: cs) % u64Mod) % u64Mod) else none) = _
    rw [Nat.add_mod_mod]

theorem pdsGo_unit (u : Char) (m : Nat) (hu : unitSeconds u = some m) :
    ∀ (rest : List Char) (total v : Nat) (h : Bool),
      pdsGo (u :: rest) total (some v) h =
        pdsGo rest ((total + v * m) % u64Mod) none true := by
  have hcases : u = 'w' ∨ u = 'W' ∨ u = 'd' ∨ u = 'D' ∨ u = 'h' ∨ u = 'H' ∨
      u = 'm' ∨ u = 'M' ∨ u = 's' ∨ u = 'S' := by
    unfold unitSeconds at hu
    split at hu
    · exact Or.inl rfl
    · exact Or.inr (Or.inl rfl)
    · exact Or.inr (Or.inr (Or.inl rfl))
    · exact Or.inr (Or.inr (Or.inr (Or.inl rfl)))
    · exact Or.inr (Or.inr (Or.inr (Or.inr (Or.inl rfl))))
    · exact Or.inr (Or.inr (Or.inr (Or.inr (Or.inr (Or.inl rfl)))))
    · exact Or.inr (Or.inr (Or.inr (Or.inr (Or.inr (Or.inr (Or.inl rfl))))))
    · exact Or.inr (Or.inr (Or.inr (Or.inr (Or.inr (Or.inr (Or.inr (Or.inl rfl)))))))
    · exact Or.inr (Or.inr (Or.inr (Or.inr (Or.inr (Or.inr (Or.inr (Or.inr (Or.inl rfl))))))))
    · exact Or.inr (Or.inr (Or.inr (Or.inr (Or.inr (Or.inr (Or.inr (Or.inr (Or.inr rfl))))))))
    · exact absurd hu (by simp)
  intro rest total v h
  rcases hcases with h1 | h1 | h1 | h1 | h1 | h1 | h1 | h1 | h1 | h1
  · subst h1
    simp only [unitSeconds, Option.some.injEq] at hu
    subst hu
    show pdsGo rest ((total + ((v * 7) % u64Mod) * 86400 % u64Mod) % u64Mod) none true = _
    rw [Nat.mod_mul_mod, Nat.add_mod_mod, Nat.mul_assoc]
  · subst h1
    simp only [unitSeconds, Option.some.injEq] at hu
    subst hu
    show pdsGo rest ((total + ((v * 7) % u64Mod) * 86400 % u64Mod) % u64Mod) none true = _
    rw [Nat.mod_mul_mod, Nat.add_mod_mod, Nat.mul_assoc]
  · subst h1
    simp only [unitSeconds, Option.some.injEq] at hu
    subst hu
    show pdsGo rest ((total + (v * 86400) % u64Mod) % u64Mod) none true = _
    rw [Nat.add_mod_mod]
  · subst h1
    simp only [unitSeconds, Option.some.injEq] at hu
    subst hu
    show pdsGo rest ((total + (v * 86400) % u64Mod) % u64Mod) none true = _
    rw [Nat.add_mod_mod]
  · subst h1
    simp only [unitSeconds, Option.some.injEq] at hu
    subst hu
    show pdsGo rest ((total + (v * 3600) % u64Mod) % u64Mod) none true = _
    rw [Nat.add_mod_mod]
  · subst h1
    simp only [unitSeconds, Option.some.injEq] at hu
    subst hu
    show pdsGo rest ((total + (v * 3600) % u64Mod) % u64Mod) none true = _
    rw [Nat.add_mod_mod]
  · subst h1
    simp only [unitSeconds, Option.some.injEq] at hu
    subst hu
    show pdsGo rest ((total + (v * 60) % u64Mod) % u64Mod) none true = _
    rw [Nat.add_mod_mod]
  · subst h1
    simp only [unitSeconds, Option.some.injEq] at hu
    subst hu
    show pdsGo rest ((total + (v * 60) % u64Mod) % u64Mod) none true = _
    rw [Nat.add_mod_mod]
  · subst h1
    simp only [unitSeconds, Option.some.injEq] at hu
    subst hu
    show pdsGo rest ((total + v) % u64Mod) none true = _
    norm_num
  · subst h1
    simp only [unitSeconds, Option.some.injEq] at hu
    subst hu
    show pdsGo rest ((total + v) % u64Mod) none true = _
    norm_num

theorem pdsGo_groups (gs : List (List Char × Char)) :
    ∀ (tr : List Char) (total : Nat) (h : Bool),
      gs ≠ [] →
      (∀ p ∈ gs, p.1 ≠ [] ∧ (∀ c ∈ p.1, c.isDigit) ∧ (unitSeconds p.2).isSome) →
      (∀ c ∈ tr, c.isDigit) →
      total < u64Mod →
      pdsGo (groupChars gs tr) total none h =
        some ((total + groupsSum gs + digitsVal tr) % u64Mod) := by
  induction gs with
  | nil => intro _ _ _ hne; exact absurd rfl hne
  | cons g gs' ih =>
    intro tr total h _ hgs htr htot
    obtain ⟨hg1, hg2, hg3⟩ := hgs g (by simp)
    obtain ⟨m, hm⟩ := Option.isSome_iff_exists.mp hg3
    have hchars : groupChars (g :: gs') tr = g.1 ++ g.2 :: groupChars gs' tr := rfl
    obtain ⟨c, cs, hcc⟩ := List.exists_cons_of_ne_nil hg1
    have hdig : ∀ x ∈ (c :: cs), x.isDigit := by rw [← hcc]; exact hg2
    rw [hchars, hcc, List.cons_append]
    rw [pdsGo_none_some_zero c (cs ++ g.2 :: groupChars gs' tr) total h
      (hdig c (by simp))]
    rw [← List.cons_append]
    rw [pdsGo_digits (c :: cs) hdig _ total 0 h, pdsFold_zero,
      pdsGo_unit g.2 m hm]
    have hsum : groupsSum (g :: gs') = digitsVal g.1 * m + groupsSum gs' := by
      simp [groupsSum, hm]
    have harith : (total + digitsVal (c :: cs) % u64Mod * m) % u64Mod =
        (total + digitsVal g.1 * m) % u64Mod := by
      rw [hcc, Nat.add_mod, Nat.mod_mul_mod, ← Nat.add_mod]
    rw [harith]
    cases gs' with
    | nil =>
      have : groupChars ([] : List (List Char × Char)) tr = tr := rfl
      rw [this, pdsGo_trailing tr _ true htr (Nat.mod_lt _ u64Mod_pos)]
      rw [hsum]
      simp only [if_true, Option.some.injEq]
      rw [Nat.mod_add_mod]
      simp [groupsSum, Nat.add_assoc]
    | cons g2 gs2 =>
      rw [ih tr _ true (by simp) (fun p hp => hgs p (by simp [hp])) htr
        (Nat.mod_lt _ u64Mod_pos)]
      rw [hsum]
      congr 1
      conv_lhs => rw [Nat.add_assoc, Nat.mod_add_mod]
      congr 1
      ring

/-! ## Claim C3 -/

/-- C3 counterexample: the code returns nothing for the bare-digit input
`"90"`, where the claim's example demands `90`. -/
theorem claim_C3_counterexample :
    parse_duration_string "90" = none ∧ parse_duration_string "90" ≠ some 90 := by
  decide

/-- C3 (amended): `parseDurationString` sums consecutive `<digits><unit>`
groups (unit in w/d/h/m/s, case-insensitive, `u64`-wrapping) into seconds and
adds a trailing run of digits with no unit as bare seconds, but returns
nothing whenever no unit letter was consumed — in particular for purely
numeric input such as `"90"`; `parseDurationString "1d2h3m4s" = 93784` and
`parseDurationString "abc"` is nothing. -/
theorem claim_C3_amended :
    parse_duration_string "1d2h3m4s" = some 93784
    ∧ parse_duration_string "abc" = none
    ∧ (∀ tr : List Char, (∀ c ∈ tr, c.isDigit) → parse_duration_string ⟨tr⟩ = none)
    ∧ (∀ (gs : List (List Char × Char)) (tr : List Char),
        gs ≠ [] →
        (∀ p ∈ gs, p.1 ≠ [] ∧ (∀ c ∈ p.1, c.isDigit) ∧ (unitSeconds p.2).isSome) →
        (∀ c ∈ tr, c.isDigit) →
        parse_duration_string ⟨groupChars gs tr⟩ =
          some ((groupsSum gs + digitsVal tr) % u64Mod)) := by
  refine ⟨by decide, by decide, ?_, ?_⟩
  · intro tr htr
    show pdsGo tr 0 none false = none
    rw [pdsGo_trailing tr 0 false htr u64Mod_pos]
    rfl
  · intro gs tr hne hgs htr
    show pdsGo (groupChars gs tr) 0 none false = _
    rw [pdsGo_groups gs tr 0 false hne hgs htr u64Mod_pos]
    rw [Nat.zero_add]

/-- C3 witness: the amended theorem evaluated at the concrete group run
`2h` followed by trailing digits `30`. -/
theorem claim_C3_witness : parse_duration_string "2h30" = some 7230 := by
  have h := claim_C3_amended.2.2.2 [(['2'], 'h')] ['3', '0'] (by decide) (by decide)
    (by decide)
  have e1 : (⟨groupChars [(['2'], 'h')] ['3', '0']⟩ : String) = "2h30" := by decide
  have e2 : (groupsSum [(['2'], 'h')] + digitsVal ['3', '0']) % u64Mod = 7230 := by
    decide
  rw [e1, e2] at h
  exact h

/-! ## Claim C4 -/

/-- C4: a refresh is all-or-nothing — on fetch failure the stored snapshot
(and everything except the status line) is unchanged and the status reports
the failure; on success the snapshot is replaced wholesale with jail 0 and
row 0 selected when non-empty, both selections cleared when empty. -/
theorem claim_C4 (env : Env) (s : UiState) :
    (∀ e, fetch_status env = .error e →
      refresh env s = { s with status := "Refresh failed: " ++ e })
    ∧ (∀ js, fetch_status env = .ok js →
      (refresh env s).jails = js
      ∧ (js = [] → (refresh env s).jail_sel = none ∧ (refresh env s).ip_sel = none)
      ∧ (js ≠ [] → (refresh env s).jail_sel = some 0
          ∧ (refresh env s).ip_sel = some 0)) := by
  constructor
  · intro e he
    unfold refresh
    rw [he]
  · intro js hjs
    unfold refresh
    rw [hjs]
    by_cases h : js = []
    · subst h
      simp
    · have hne : js.isEmpty = false := by
        cases js with
        | nil => exact absurd rfl h
        | cons a l => rfl
      simp [hne, h]

/-- C4 witness: a failing fetch leaves everything but the status line
unchanged. -/
theorem claim_C4_witness :
    refresh envBoom uiEmpty = { uiEmpty with status := "Refresh failed: boom" } :=
  (claim_C4 envBoom uiEmpty).1 "boom" rfl

/-! ## Claim C2 -/

theorem eipGo_nodup (ts : List (List Char)) :
    ∀ seen : List String,
      (eipGo ts seen).Nodup ∧ ∀ x ∈ eipGo ts seen, x ∉ seen := by
  induction ts with
  | nil => intro seen; exact ⟨List.nodup_nil, by simp [eipGo]⟩
  | cons t ts ih =>
    intro seen
    cases hc : (isIpAddr ⟨t⟩ && !seen.contains (⟨t⟩ : String)) with
    | false =>
      have hstep : eipGo (t :: ts) seen = eipGo ts seen := by
        show (if isIpAddr ⟨t⟩ && !seen.contains (⟨t⟩ : String)
            then (⟨t⟩ : String) :: eipGo ts ((⟨t⟩ : String) :: seen)
            else eipGo ts seen) = _
        rw [hc]
        rfl
      rw [hstep]
      exact ih seen
    | true =>
      have hstep : eipGo (t :: ts) seen =
          (⟨t⟩ : String) :: eipGo ts ((⟨t⟩ : String) :: seen) := by
        show (if isIpAddr ⟨t⟩ && !seen.contains (⟨t⟩ : String)
            then (⟨t⟩ : String) :: eipGo ts ((⟨t⟩ : String) :: seen)
            else eipGo ts seen) = _
        rw [hc]
        rfl
      rw [hstep]
      have hnot : (⟨t⟩ : String) ∉ seen := by
        have := (Bool.and_eq_true _ _).mp hc |>.2
        simpa using this
      obtain ⟨hnd, hmem⟩ := ih ((⟨t⟩ : String) :: seen)
      refine ⟨List.nodup_cons.mpr ⟨fun hx => ?_, hnd⟩, fun x hx => ?_⟩
      · exact (hmem _ hx) (by simp)
      · rcases List.mem_cons.mp hx with h1 | h1
        · subst h1; exact hnot
        · intro hs
          exact (hmem _ h1) (by simp [hs])

/-- C2 counterexample: the with-time parser performs no de-duplication, so a
raw text repeating one address yields two entries with the same ip. -/
theorem claim_C2_counterexample :
    (parse_banip_with_time envBoom "1.2.3.4 1.2.3.4" none).map IpEntry.ip =
      ["1.2.3.4", "1.2.3.4"]
    ∧ ¬ ((parse_banip_with_time envBoom "1.2.3.4 1.2.3.4" none).map IpEntry.ip).Nodup := by
  constructor
  · decide
  · decide

/-- C2 (amended): the fallback address-list path does de-duplicate — the
addresses produced by `extract_ips`, and hence the entries produced by
`ips_from_status`, never contain a duplicate ip; the `banip --with-time`
parse path, by contrast, keeps one entry per ip token occurrence, so a raw
text that repeats an ip yields duplicate entries there. -/
theorem claim_C2_amended (text : String) :
    (extract_ips text).Nodup ∧ ((ips_from_status text).map IpEntry.ip).Nodup := by
  constructor
  · exact (eipGo_nodup _ []).1
  · have hmap : ∀ l : List String,
        (l.map fun ip =>
          ({ ip := ip, end_epoch := none, time_raw := none } : IpEntry)).map
            IpEntry.ip = l := by
      intro l
      induction l with
      | nil => rfl
      | cons a l ih => simp [ih]
    show ((parse_banned_ips text).map _).map IpEntry.ip |>.Nodup
    rw [hmap]
    unfold parse_banned_ips
    match findTail "Banned IP list:".data text.data with
    | some tail => exact (eipGo_nodup _ []).1
    | none => exact List.nodup_nil

/-! ## Claim C5 -/

theorem digit_not_ws (c : Char) (h : c.isDigit = true) : c.isWhitespace = false := by
  have hlo : 48 ≤ c.toNat := by
    simp [Char.isDigit, Char.le_def] at h
    exact h.1
  by_contra hws
  have hws' : c.isWhitespace = true := by
    cases hw : c.isWhitespace
    · exact absurd hw hws
    · rfl
  have : ((c = ' ' ∨ c = '\t') ∨ c = '\r') ∨ c = '\n' := by
    simpa [Char.isWhitespace] using hws'
  rcases this with ((rfl | rfl) | rfl) | rfl <;> simp at hlo

theorem digit_not_punct (c : Char) (h : c.isDigit = true) : isPunct c = false := by
  have hd : 48 ≤ c.toNat ∧ c.toNat ≤ 57 := by
    simp [Char.isDigit, Char.le_def] at h
    exact h
  cases hp : isPunct c
  · rfl
  · have : c = ',' ∨ c = ';' := by simpa [isPunct] using hp
    rcases this with rfl | rfl <;> simp at hd

theorem dropWhile_eq_self_of_all_false {p : Char → Bool} {l : List Char}
    (h : ∀ c ∈ l, p c = false) : l.dropWhile p = l := by
  cases l with
  | nil => rfl
  | cons c cs => simp [List.dropWhile_cons, h c (by simp)]

theorem trimChars_of_digits {l : List Char} (h : ∀ c ∈ l, c.isDigit = true) :
    trimChars l = l := by
  unfold trimChars
  rw [dropWhile_eq_self_of_all_false (fun c hc => digit_not_ws c (h c hc))]
  rw [dropWhile_eq_self_of_all_false
    (fun c hc => digit_not_ws c (h c (List.mem_reverse.mp hc)))]
  exact List.reverse_reverse l

theorem trimPunct_of_digits {l : List Char} (h : ∀ c ∈ l, c.isDigit = true) :
    trimPunct l = l := by
  unfold trimPunct
  rw [dropWhile_eq_self_of_all_false (fun c hc => digit_not_punct c (h c hc))]
  rw [dropWhile_eq_self_of_all_false
    (fun c hc => digit_not_punct c (h c (List.mem_reverse.mp hc)))]
  exact List.reverse_reverse l

theorem digitsToNat?_of_digits {l : List Char} (h1 : l ≠ [])
    (h2 : ∀ c ∈ l, c.isDigit = true) : digitsToNat? l = some (digitsVal l) := by
  unfold digitsToNat?
  rw [if_neg, if_pos]
  · exact List.all_eq_true.mpr h2
  · simp [List.isEmpty_iff, h1]

theorem parseI64_of_digits {l : List Char} (h1 : l ≠ [])
    (h2 : ∀ c ∈ l, c.isDigit = true) :
    parseI64 ⟨l⟩ =
      if (digitsVal l : Int) ≤ i64Max then some ((digitsVal l : Int)) else none := by
  unfold parseI64
  split
  · next rest heq =>
    exfalso
    have heq' : l = '+' :: rest := heq
    subst heq'
    exact absurd (h2 '+' (by simp)) (by decide)
  · next rest heq =>
    exfalso
    have heq' : l = '-' :: rest := heq
    subst heq'
    exact absurd (h2 '-' (by simp)) (by decide)
  · show (digitsToNat? l).bind _ = _
    rw [digitsToNat?_of_digits h1 h2]
    rfl

theorem ptte_digits (env : Env) {l : List Char} (h1 : l ≠ [])
    (h2 : ∀ c ∈ l, c.isDigit = true) (bt : Option Nat) :
    parse_time_to_epoch env ⟨l⟩ bt =
      match parseI64 ⟨l⟩ with
      | none => none
      | some epoch => some (resolve_end_epoch env.now epoch bt) := by
  unfold parse_time_to_epoch
  have hclean : trimPunct (trimChars (String.data ⟨l⟩)) = l := by
    rw [show String.data ⟨l⟩ = l from rfl, trimChars_of_digits h2,
      trimPunct_of_digits h2]
  have hne : l.isEmpty = false := by
    cases l with
    | nil => exact absurd rfl h1
    | cons a as => rfl
  have hdig : l.all Char.isDigit = true := List.all_eq_true.mpr h2
  simp only [hclean, hne, hdig]
  rfl

/-- C5 counterexample: the token `"9223372036854775808"` (2^63) denotes an
epoch at/after `now = 0`, so the claim demands exactly that epoch back, but
the `i64` parse overflows and the code resolves nothing. -/
theorem claim_C5_counterexample :
    parse_time_to_epoch envBoom "9223372036854775808" (some 5) = none
    ∧ (9223372036854775808 : Int) ≥ envBoom.now
    ∧ parse_time_to_epoch envBoom "9223372036854775808" (some 5) ≠
        some (9223372036854775808 : Int) := by
  refine ⟨by decide, by decide, by decide⟩

/-- C5 (amended): for a purely-numeric token whose value fits in `i64`:
at/after now the resolved expiry is exactly that epoch; before now with a
known bantime below 2^63 whose sum stays within `i64`, it is epoch+bantime;
before now with unknown bantime it is the raw epoch. A purely-numeric token
beyond `i64::MAX` fails to resolve (the `parse::<i64>` overflow check). -/
theorem claim_C5_amended (env : Env) (l : List Char) (h1 : l ≠ [])
    (h2 : ∀ c ∈ l, c.isDigit = true) :
    ((digitsVal l : Int) > i64Max → ∀ bt, parse_time_to_epoch env ⟨l⟩ bt = none)
    ∧ ((digitsVal l : Int) ≤ i64Max →
      ((digitsVal l : Int) ≥ env.now →
        ∀ bt, parse_time_to_epoch env ⟨l⟩ bt = some ((digitsVal l : Int)))
      ∧ ((digitsVal l : Int) < env.now →
        (∀ b : Nat, (b : Int) < 2 ^ 63 → (digitsVal l : Int) + b ≤ i64Max →
          parse_time_to_epoch env ⟨l⟩ (some b) = some ((digitsVal l : Int) + b))
        ∧ parse_time_to_epoch env ⟨l⟩ none = some ((digitsVal l : Int)))) := by
  have hI : parseI64 ⟨l⟩ =
      if (digitsVal l : Int) ≤ i64Max then some ((digitsVal l : Int)) else none :=
    parseI64_of_digits h1 h2
  refine ⟨?_, ?_⟩
  · intro hgt bt
    rw [ptte_digits env h1 h2 bt, hI, if_neg (not_le.mpr hgt)]
  · intro hle
    refine ⟨?_, ?_⟩
    · intro hge bt
      rw [ptte_digits env h1 h2 bt, hI, if_pos hle]
      show some (resolve_end_epoch env.now (digitsVal l) bt) = _
      unfold resolve_end_epoch
      rw [if_pos hge]
    · intro hlt
      refine ⟨?_, ?_⟩
      · intro b hb hsum
        rw [ptte_digits env h1 h2 (some b), hI, if_pos hle]
        show some (resolve_end_epoch env.now (digitsVal l) (some b)) = _
        unfold resolve_end_epoch
        rw [if_neg (not_le.mpr hlt)]
        show some (satAddI64 (digitsVal l) (u64CastI64 b)) = _
        have hcast : u64CastI64 b = (b : Int) := by
          unfold u64CastI64
          rw [if_pos]
          exact_mod_cast hb
        rw [hcast]
        unfold satAddI64
        have hmax : ¬ ((digitsVal l : Int) + (b : Int) > i64Max) := not_lt.mpr hsum
        have hmin : ¬ ((digitsVal l : Int) + (b : Int) < i64Min) := by
          have hd : (0 : Int) ≤ (digitsVal l : Int) := Int.natCast_nonneg _
          have hbn : (0 : Int) ≤ (b : Int) := Int.natCast_nonneg _
          have : i64Min < 0 := by decide
          omega
        rw [if_neg hmax, if_neg hmin]
      · rw [ptte_digits env h1 h2 none, hI, if_pos hle]
        show some (resolve_end_epoch env.now (digitsVal l) none) = _
        unfold resolve_end_epoch
        rw [if_neg (not_le.mpr hlt)]

/-- C5 witness: the amended theorem at the past epoch token `"50"` with
bantime 7 under `now = 100`. -/
theorem claim_C5_witness :
    parse_time_to_epoch envNow100 "50" (some 7) = some 57 := by
  have h := (((claim_C5_amended envNow100 ['5', '0'] (by decide) (by decide)).2
      (by decide)).2 (by decide)).1 7 (by decide) (by decide)
  have e1 : (⟨['5', '0']⟩ : String) = "50" := by decide
  have e2 : ((digitsVal ['5', '0'] : Int) + ((7 : Nat) : Int)) = 57 := by decide
  rw [e1, e2] at h
  exact h

/-- C6 counterexample: with the stored query `" a "` the projection keeps the
entry with address `1a2` (the code filters by the trimmed lowercased query
`"a"`), yet `"1a2"` does not contain `" a "` as a case-insensitive substring,
contradicting the claim's filtering property for the raw query. -/
theorem claim_C6_counterexample :
    current_ip_view 0 uiSearch jailA = [entry1a2]
    ∧ substrB (lowerStr " a ").data (lowerStr entry1a2.ip).data = false := by
  constructor
  · rfl
  · decide

/-- C6 (amended): every entry of the projection has an address containing the
trimmed query as a case-insensitive substring (the empty trimmed query
matching all entries), and the projection is a permutation of the matching
entries of `jail.bans` — every matching entry occurrence appears exactly
once. -/
theorem claim_C6_amended (now : Int) (s : UiState) (jail : JailStatus) :
    (∀ e ∈ current_ip_view now s jail, ipMatches s.search_query e = true)
    ∧ (current_ip_view now s jail).Perm
        (jail.ips.filter (ipMatches s.search_query)) := by
  have hperm : (current_ip_view now s jail).Perm
      (jail.ips.filter (ipMatches s.search_query)) := by
    simp only [current_ip_view]
    split
    · exact List.perm_insertionSort _ _
    · exact List.perm_insertionSort _ _
  refine ⟨fun e he => ?_, hperm⟩
  have hmem : e ∈ jail.ips.filter (ipMatches s.search_query) :=
    hperm.mem_iff.mp he
  exact List.of_mem_filter hmem

/-- C6 witness: the amended theorem applied to the concrete jail and query
`" a "` at the projected entry. -/
theorem claim_C6_witness :
    ipMatches uiSearch.search_query entry1a2 = true :=
  (claim_C6_amended 0 uiSearch jailA).1 entry1a2 (by decide)

theorem keyTL_none (now : Int) {e : IpEntry} (h : e.end_epoch = none) :
    keyTL now e = u64Max := by
  unfold keyTL remaining_seconds
  rw [h]
  rfl

theorem keyTL_some (now : Int) {e : IpEntry} {x : Int} (h : e.end_epoch = some x)
    (hnow : 0 ≤ now) (hx : x ≤ i64Max) :
    keyTL now e = (max 0 (x - now)).toNat ∧ keyTL now e < u64Max := by
  have hred : keyTL now e =
      if x ≤ now then 0 else ((x - now).emod (2 ^ 64)).toNat := by
    unfold keyTL remaining_seconds
    rw [h]
    show (if x ≤ now then some 0
        else some ((x - now).emod (2 ^ 64)).toNat).getD u64Max = _
    split
    · rfl
    · rfl
  by_cases hc : x ≤ now
  · rw [hred, if_pos hc]
    constructor
    · have hm : max 0 (x - now) = 0 := max_eq_left (sub_nonpos.mpr hc)
      rw [hm]
      rfl
    · decide
  · rw [hred, if_neg hc]
    push_neg at hc
    have hpos : 0 ≤ x - now := by omega
    have hlt : x - now < 2 ^ 64 := by
      have : i64Max < (2 : Int) ^ 64 := by decide
      omega
    have hemod : (x - now).emod (2 ^ 64) = x - now := Int.emod_eq_of_lt hpos hlt
    rw [hemod]
    have hm : max 0 (x - now) = x - now := max_eq_right hpos
    rw [hm]
    refine ⟨rfl, ?_⟩
    have h1 : x - now ≤ i64Max := by omega
    have h2 : (x - now).toNat ≤ i64Max.toNat := Int.toNat_le_toNat h1
    have h3 : i64Max.toNat < u64Max := by decide
    omega

/-- C7: under `sortMode = ByTimeLeft` (with a non-negative clock reading and
expiry epochs within `i64`, as produced by the fetcher), the projection is
non-decreasing in remaining seconds `max 0 (expiry - now)`, and every entry
with unknown remaining time is placed strictly after every entry with a known
remaining time. -/
theorem claim_C7 (now : Int) (s : UiState) (jail : JailStatus)
    (hsm : s.sort_mode = SortMode.TimeLeft)
    (hnow : 0 ≤ now)
    (hbound : ∀ e ∈ jail.ips, ∀ x, e.end_epoch = some x → x ≤ i64Max) :
    (current_ip_view now s jail).Pairwise (unknownLast now) := by
  haveI : IsTotal IpEntry (tlRel now) := ⟨fun a b => Nat.le_total _ _⟩
  haveI : IsTrans IpEntry (tlRel now) := ⟨fun _ _ _ h1 h2 => Nat.le_trans h1 h2⟩
  have hview : current_ip_view now s jail =
      List.insertionSort (tlRel now)
        (jail.ips.filter (ipMatches s.search_query)) := by
    simp only [current_ip_view, hsm]
  rw [hview]
  have hsorted : (List.insertionSort (tlRel now)
      (jail.ips.filter (ipMatches s.search_query))).Pairwise (tlRel now) :=
    List.sorted_insertionSort (tlRel now) _
  refine hsorted.imp_of_mem ?_
  intro a b ha hb hab
  have hha : a ∈ jail.ips :=
    List.mem_of_mem_filter ((List.perm_insertionSort _ _).mem_iff.mp ha)
  have hhb : b ∈ jail.ips :=
    List.mem_of_mem_filter ((List.perm_insertionSort _ _).mem_iff.mp hb)
  unfold unknownLast claimRemaining
  cases hea : a.end_epoch with
  | none =>
    cases heb : b.end_epoch with
    | none => simp
    | some xb =>
      have hka : keyTL now a = u64Max := keyTL_none now hea
      have hkb := keyTL_some now heb hnow (hbound b hhb xb heb)
      have hge : u64Max ≤ keyTL now b := by
        rw [← hka]
        exact hab
      exact absurd hge (not_le.mpr hkb.2)
  | some xa =>
    cases heb : b.end_epoch with
    | none => simp
    | some xb =>
      have hka := keyTL_some now hea hnow (hbound a hha xa hea)
      have hkb := keyTL_some now heb hnow (hbound b hhb xb heb)
      have hle : (max 0 (xa - now)).toNat ≤ (max 0 (xb - now)).toNat := by
        rw [← hka.1, ← hkb.1]
        exact hab
      have h0a : 0 ≤ max 0 (xa - now) := le_max_left _ _
      have h0b : 0 ≤ max 0 (xb - now) := le_max_left _ _
      show max 0 (xa - now) ≤ max 0 (xb - now)
      omega

/-- C7 witness: the theorem applied at `now = 100` to a jail holding a
past-expiry entry, a future-expiry entry and an unknown-expiry entry. -/
theorem claim_C7_witness :
    (current_ip_view 100 uiTime jailT).Pairwise (unknownLast 100) :=
  claim_C7 100 uiTime jailT rfl (by decide)
    (by
      intro e he x hx
      have h3 : e = entryT1 ∨ e = entryT2 ∨ e = entryT3 := by
        simpa [jailT] using he
      rcases h3 with rfl | rfl | rfl
      · have hx1 : x = 160 := by simpa [entryT1] using hx.symm
        subst hx1
        decide
      · have hx2 : x = 50 := by simpa [entryT2] using hx.symm
        subst hx2
        decide
      · exact absurd hx (by simp [entryT3]))

theorem handle_final_eq (env : Env) (s : UiState) (jail : String)
    (key : KeyEvent) (hkey : isConfirmKey key) :
    handle_modal_key env key s (Modal.UnbanAll jail 2) =
      match unban_all_in_jail env s jail with
      | (.ok count, cmds) =>
        (refresh env
          { s with status := "Unbanned " ++ toString count ++ " IPs from " ++ jail
                   modal := none },
         cmds)
      | (.error e, cmds) =>
        ({ s with status := "Unban all failed for " ++ jail ++ ": " ++ e
                  modal := none },
         cmds) := by
  rcases hkey with hk | hk | hk <;> simp only [handle_modal_key, hk] <;> rfl

theorem handle_first_eq (env : Env) (s : UiState) (jail : String)
    (key : KeyEvent) (hkey : isConfirmKey key) :
    handle_modal_key env key s (Modal.UnbanAll jail 1) =
      ({ s with modal := some (Modal.UnbanAll jail 2)
                status := "Second confirmation required" }, []) := by
  rcases hkey with hk | hk | hk <;> simp only [handle_modal_key, hk] <;> rfl

theorem handle_final_cmds (env : Env) (s : UiState) (jail : String)
    (key : KeyEvent) (hkey : isConfirmKey key) :
    (handle_modal_key env key s (Modal.UnbanAll jail 2)).2 =
      (unban_all_in_jail env s jail).2 := by
  rw [handle_final_eq env s jail key hkey]
  rcases hu : unban_all_in_jail env s jail with ⟨r, cmds⟩
  cases r <;> rfl

theorem unban_all_eq (env : Env) (s : UiState) (jail : String) (js : JailStatus)
    (hfind : s.jails.find? (fun j => j.name == jail) = some js)
    (hne : js.ips ≠ []) :
    unban_all_in_jail env s jail = uaGo env jail (chunksOf 50 js.ips) 0 := by
  unfold unban_all_in_jail
  rw [hfind]
  have h : js.ips.isEmpty = false := by
    cases hip : js.ips with
    | nil => exact absurd hip hne
    | cons a l => rfl
  show (if js.ips.isEmpty then ((.ok 0 : Except String Nat), ([] : List (List String)))
      else uaGo env jail (chunksOf 50 js.ips) 0) = _
  rw [h]
  rfl

theorem uaGo_cons_ne (env : Env) (jail : String) (ch : List IpEntry)
    (rest : List (List IpEntry)) (total : Nat) :
    (uaGo env jail (ch :: rest) total).2 ≠ [] := by
  show (match env.runner (["set", jail, "unbanip"] ++ ch.map fun x : IpEntry => x.ip) with
    | .error e => ((.error e : Except String Nat),
        [["set", jail, "unbanip"] ++ ch.map fun x : IpEntry => x.ip])
    | .ok _ =>
      let r := uaGo env jail rest (total + ch.length)
      (r.1, (["set", jail, "unbanip"] ++ ch.map fun x : IpEntry => x.ip) :: r.2)).2 ≠ []
  cases env.runner (["set", jail, "unbanip"] ++ ch.map fun x : IpEntry => x.ip) <;> simp

theorem chunksGo_eq (n : Nat) :
    ∀ (fuel1 fuel2 : Nat) (l : List α), l.length ≤ fuel1 → l.length ≤ fuel2 →
      chunksGo n fuel1 l = chunksGo n fuel2 l := by
  intro fuel1
  induction fuel1 with
  | zero =>
    intro fuel2 l h1 _
    have : l = [] := List.length_eq_zero.mp (Nat.le_zero.mp h1)
    subst this
    cases fuel2 <;> rfl
  | succ f ih =>
    intro fuel2 l h1 h2
    cases l with
    | nil => cases fuel2 <;> rfl
    | cons x xs =>
      cases fuel2 with
      | zero => exact absurd h2 (by simp)
      | succ f2 =>
        show (x :: xs.take (n - 1)) :: chunksGo n f (xs.drop (n - 1)) =
          (x :: xs.take (n - 1)) :: chunksGo n f2 (xs.drop (n - 1))
        have hd : (xs.drop (n - 1)).length ≤ xs.length := by
          simp [List.length_drop]
        have hx1 : xs.length ≤ f := by simpa using h1
        have hx2 : xs.length ≤ f2 := by simpa using h2
        rw [ih f2 (xs.drop (n - 1)) (le_trans hd hx1) (le_trans hd hx2)]

theorem chunksOf_cons (n : Nat) (x : α) (xs : List α) :
    chunksOf n (x :: xs) = (x :: xs.take (n - 1)) :: chunksOf n (xs.drop (n - 1)) := by
  show (x :: xs.take (n - 1)) :: chunksGo n xs.length (xs.drop (n - 1)) =
    (x :: xs.take (n - 1)) :: chunksGo n (xs.drop (n - 1)).length (xs.drop (n - 1))
  rw [chunksGo_eq n xs.length (xs.drop (n - 1)).length (xs.drop (n - 1))
    (by simp [List.length_drop]) le_rfl]

theorem chunksOf_flatten (n : Nat) : ∀ l : List α, (chunksOf n l).flatten = l := by
  have hgo : ∀ (fuel : Nat) (l : List α), l.length ≤ fuel →
      (chunksGo n fuel l).flatten = l := by
    intro fuel
    induction fuel with
    | zero =>
      intro l h1
      have : l = [] := List.length_eq_zero.mp (Nat.le_zero.mp h1)
      subst this
      rfl
    | succ f ih =>
      intro l h1
      cases l with
      | nil => rfl
      | cons x xs =>
        show ((x :: xs.take (n - 1)) :: chunksGo n f (xs.drop (n - 1))).flatten = _
        have hd : (xs.drop (n - 1)).length ≤ f := by
          have : xs.length ≤ f := by simpa using h1
          simp [List.length_drop]
          omega
        rw [List.flatten_cons, ih (xs.drop (n - 1)) hd]
        simp [List.take_append_drop]
  exact fun l => hgo l.length l le_rfl

theorem chunksOf_mem_le (n : Nat) (hn : 0 < n) :
    ∀ l : List α, ∀ b ∈ chunksOf n l, b.length ≤ n := by
  have hgo : ∀ (fuel : Nat) (l : List α), l.length ≤ fuel →
      ∀ b ∈ chunksGo n fuel l, b.length ≤ n := by
    intro fuel
    induction fuel with
    | zero =>
      intro l h1
      have : l = [] := List.length_eq_zero.mp (Nat.le_zero.mp h1)
      subst this
      intro b hb
      exact absurd hb (by simp [chunksGo])
    | succ f ih =>
      intro l h1 b hb
      cases l with
      | nil => exact absurd hb (by simp [chunksGo])
      | cons x xs =>
        have hb' : b ∈ (x :: xs.take (n - 1)) :: chunksGo n f (xs.drop (n - 1)) := hb
        rcases List.mem_cons.mp hb' with rfl | hmem
        · have := List.length_take_le (n - 1) xs
          simp only [List.length_cons]
          omega
        · have hd : (xs.drop (n - 1)).length ≤ f := by
            have : xs.length ≤ f := by simpa using h1
            simp [List.length_drop]
            omega
          exact ih (xs.drop (n - 1)) hd b hmem
  exact fun l => hgo l.length l le_rfl

/-! ## Claim C8 -/

/-- C8: confirming the `ConfirmUnbanAll` modal at `step = First` issues no
command at all — the only effects are advancing the modal to the final step
and setting the second-confirmation status — while confirming at
`step = Final` with a non-empty stored ban list issues bulk-unban
commands. -/
theorem claim_C8 (env : Env) (s : UiState) (jail : String) (key : KeyEvent)
    (hkey : isConfirmKey key) :
    handle_modal_key env key s (Modal.UnbanAll jail 1) =
      ({ s with modal := some (Modal.UnbanAll jail 2)
                status := "Second confirmation required" }, [])
    ∧ (∀ js, s.jails.find? (fun j => j.name == jail) = some js → js.ips ≠ [] →
        (handle_modal_key env key s (Modal.UnbanAll jail 2)).2 ≠ []) := by
  refine ⟨handle_first_eq env s jail key hkey, ?_⟩
  intro js hfind hne
  rw [handle_final_cmds env s jail key hkey,
    unban_all_eq env s jail js hfind hne]
  obtain ⟨x, xs, hx⟩ := List.exists_cons_of_ne_nil hne
  rw [hx, chunksOf_cons]
  exact uaGo_cons_ne env jail _ _ _

/-- C8 witness: the theorem applied to the concrete 51-address jail — the
first confirmation issues nothing and advances the modal; the final
confirmation issues commands. -/
theorem claim_C8_witness :
    handle_modal_key env51 ⟨KeyCode.char 'y', false⟩ ui51 (Modal.UnbanAll "j" 1) =
      ({ ui51 with modal := some (Modal.UnbanAll "j" 2)
                   status := "Second confirmation required" }, [])
    ∧ (handle_modal_key env51 ⟨KeyCode.char 'y', false⟩ ui51
        (Modal.UnbanAll "j" 2)).2 ≠ [] := by
  have h := claim_C8 env51 ui51 "j" ⟨KeyCode.char 'y', false⟩ (Or.inl rfl)
  exact ⟨h.1, h.2 jail51 (by decide) (by decide)⟩

theorem uaGo_spec (env : Env) (jail : String) :
    ∀ (batches : List (List IpEntry)) (total : Nat),
      ((uaGo env jail batches total).1 =
          .ok (total + (batches.map List.length).sum)
        ∧ (uaGo env jail batches total).2 = batches.map (mkUnbanCmd jail)
        ∧ ∀ c ∈ batches, ∃ o, env.runner (mkUnbanCmd jail c) = .ok o)
      ∨ (∃ pre ch post e, batches = pre ++ ch :: post
        ∧ (∀ c ∈ pre, ∃ o, env.runner (mkUnbanCmd jail c) = .ok o)
        ∧ env.runner (mkUnbanCmd jail ch) = .error e
        ∧ (uaGo env jail batches total).1 = .error e
        ∧ (uaGo env jail batches total).2 = (pre ++ [ch]).map (mkUnbanCmd jail)) := by
  intro batches
  induction batches with
  | nil =>
    intro total
    left
    exact ⟨by simp [uaGo], rfl, by simp⟩
  | cons ch rest ih =>
    intro total
    have hstep : uaGo env jail (ch :: rest) total =
        match env.runner (mkUnbanCmd jail ch) with
        | .error e => (.error e, [mkUnbanCmd jail ch])
        | .ok _ =>
          let r := uaGo env jail rest (total + ch.length)
          (r.1, mkUnbanCmd jail ch :: r.2) := rfl
    cases hr : env.runner (mkUnbanCmd jail ch) with
    | error e =>
      right
      refine ⟨[], ch, rest, e, by simp, by simp, hr, ?_, ?_⟩
      · rw [hstep, hr]
      · rw [hstep, hr]
        simp
    | ok o =>
      rcases ih (total + ch.length) with ⟨h1, h2, h3⟩ |
          ⟨pre, ch2, post, e, hsp, hpre, herr, h1, h2⟩
      · left
        refine ⟨?_, ?_, ?_⟩
        · rw [hstep, hr]
          show (uaGo env jail rest (total + ch.length)).1 = _
          rw [h1]
          congr 1
          simp [List.map_cons, List.sum_cons]
          omega
        · rw [hstep, hr]
          show mkUnbanCmd jail ch :: (uaGo env jail rest (total + ch.length)).2 = _
          rw [h2]
          rfl
        · intro c hc
          rcases List.mem_cons.mp hc with rfl | hmem
          · exact ⟨o, hr⟩
          · exact h3 c hmem
      · right
        refine ⟨ch :: pre, ch2, post, e, by rw [hsp]; rfl, ?_, herr, ?_, ?_⟩
        · intro c hc
          rcases List.mem_cons.mp hc with rfl | hmem
          · exact ⟨o, hr⟩
          · exact hpre c hmem
        · rw [hstep, hr]
          show (uaGo env jail rest (total + ch.length)).1 = _
          exact h1
        · rw [hstep, hr]
          show mkUnbanCmd jail ch :: (uaGo env jail rest (total + ch.length)).2 = _
          rw [h2]
          rfl

/-- C1 counterexample: jail `j` holds 51 addresses; the 50-address batch
succeeds and the 1-address batch fails with `boom`. The modal handler reports
`Unban all failed for j: boom` — a status that does not contain the completed
count `50` the claim requires. -/
theorem claim_C1_counterexample :
    (handle_modal_key env51 ⟨KeyCode.char 'y', false⟩ ui51
        (Modal.UnbanAll "j" 2)).1.status = "Unban all failed for j: boom"
    ∧ (handle_modal_key env51 ⟨KeyCode.char 'y', false⟩ ui51
        (Modal.UnbanAll "j" 2)).1.modal = none
    ∧ substrB "50".data
        (handle_modal_key env51 ⟨KeyCode.char 'y', false⟩ ui51
          (Modal.UnbanAll "j" 2)).1.status.data = false := by
  refine ⟨by decide, by decide, by decide⟩

/-- C1 (amended): confirming `ConfirmUnbanAll` at the Final step on a jail
with a non-empty stored ban list issues unban commands in batches of at most
50 addresses, in list order; on the first batch failure no further batch
command is issued, the modal closes, and the failure status names the jail
and the failing batch's error message (the completed-address count is not
part of the failure status). -/
theorem claim_C1_amended (env : Env) (s : UiState) (jail : String)
    (js : JailStatus) (key : KeyEvent) (hkey : isConfirmKey key)
    (hfind : s.jails.find? (fun j => j.name == jail) = some js)
    (hne : js.ips ≠ []) :
    (∀ b ∈ chunksOf 50 js.ips, b.length ≤ 50)
    ∧ (chunksOf 50 js.ips).flatten = js.ips
    ∧ (∃ k, (handle_modal_key env key s (Modal.UnbanAll jail 2)).2 =
        (batchCmds jail js.ips).take k)
    ∧ (∀ e, (unban_all_in_jail env s jail).1 = .error e →
        (handle_modal_key env key s (Modal.UnbanAll jail 2)).1.modal = none
        ∧ (handle_modal_key env key s (Modal.UnbanAll jail 2)).1.status =
            "Unban all failed for " ++ jail ++ ": " ++ e
        ∧ ∃ pre ch post,
            chunksOf 50 js.ips = pre ++ ch :: post
            ∧ (∀ c ∈ pre, ∃ o, env.runner (mkUnbanCmd jail c) = .ok o)
            ∧ env.runner (mkUnbanCmd jail ch) = .error e
            ∧ (handle_modal_key env key s (Modal.UnbanAll jail 2)).2 =
                (pre ++ [ch]).map (mkUnbanCmd jail)) := by
  have hua : unban_all_in_jail env s jail = uaGo env jail (chunksOf 50 js.ips) 0 :=
    unban_all_eq env s jail js hfind hne
  have hcmds : (handle_modal_key env key s (Modal.UnbanAll jail 2)).2 =
      (unban_all_in_jail env s jail).2 :=
    handle_final_cmds env s jail key hkey
  refine ⟨chunksOf_mem_le 50 (by norm_num) js.ips, chunksOf_flatten 50 js.ips,
    ?_, ?_⟩
  · rcases uaGo_spec env jail (chunksOf 50 js.ips) 0 with ⟨_, h2, _⟩ |
        ⟨pre, ch, post, e, hsp, _, _, _, h2⟩
    · refine ⟨(batchCmds jail js.ips).length, ?_⟩
      rw [List.take_length, hcmds, hua, h2]
      rfl
    · refine ⟨pre.length + 1, ?_⟩
      rw [hcmds, hua, h2]
      unfold batchCmds
      rw [hsp, List.map_append, List.map_cons, List.map_append, List.map_cons,
        List.map_nil]
      rw [show pre.length + 1 = (pre.map (mkUnbanCmd jail)).length + 1 from by simp]
      rw [List.take_append]
      simp
  · intro e herr
    have hfail : ∃ cmds, unban_all_in_jail env s jail = (.error e, cmds) := by
      rcases hu : unban_all_in_jail env s jail with ⟨r, cmds⟩
      rw [hu] at herr
      simp at herr
      rw [herr]
      exact ⟨cmds, rfl⟩
    obtain ⟨cmds, hu⟩ := hfail
    have hhandle : handle_modal_key env key s (Modal.UnbanAll jail 2) =
        ({ s with status := "Unban all failed for " ++ jail ++ ": " ++ e
                  modal := none }, cmds) := by
      rw [handle_final_eq env s jail key hkey, hu]
    refine ⟨by rw [hhandle], by rw [hhandle], ?_⟩
    rcases uaGo_spec env jail (chunksOf 50 js.ips) 0 with ⟨h1, _, _⟩ |
        ⟨pre, ch, post, e2, hsp, hpre, herr2, h1, h2⟩
    · rw [hua, h1] at herr
      exact absurd herr (by simp)
    · have he : e2 = e := by
        rw [hua, h1] at herr
        simpa using herr
      subst he
      refine ⟨pre, ch, post, hsp, hpre, herr2, ?_⟩
      rw [hcmds, hua, h2]

/-- C1 witness: the amended theorem applied to the concrete 51-address jail
with an always-failing runner — the issued commands are a prefix of the batch
command sequence and the failure conclusions hold at error `boom`. -/
theorem claim_C1_witness :
    (∃ k, (handle_modal_key env51 ⟨KeyCode.char 'y', false⟩ ui51
        (Modal.UnbanAll "j" 2)).2 = (batchCmds "j" jail51.ips).take k)
    ∧ (handle_modal_key env51 ⟨KeyCode.char 'y', false⟩ ui51
        (Modal.UnbanAll "j" 2)).1.modal = none := by
  have h := claim_C1_amended env51 ui51 "j" jail51 ⟨KeyCode.char 'y', false⟩
    (Or.inl rfl) (by decide) (by decide)
  exact ⟨h.2.2.1, (h.2.2.2 "boom" rfl).1⟩

/-! ## Comparator theory for the jail sort (Claim C9) -/

theorem cmpNat_eq_lt {a b : Nat} : cmpNat a b = .lt ↔ a < b := by
  unfold cmpNat
  split_ifs with h1 h2 <;> simp_all

theorem cmpNat_eq_eq {a b : Nat} : cmpNat a b = .eq ↔ a = b := by
  unfold cmpNat
  split_ifs with h1 h2 <;> simp_all <;> omega

theorem then_ne_gt {o p : Ordering} :
    o.then p ≠ .gt ↔ o = .lt ∨ (o = .eq ∧ p ≠ .gt) := by
  cases o <;> simp [Ordering.then]

theorem cmpChars_le_trans :
    ∀ {x y z : List Char}, cmpChars x y ≠ .gt → cmpChars y z ≠ .gt →
      cmpChars x z ≠ .gt := by
  intro x
  induction x with
  | nil =>
    intro y z _ _
    cases z <;> simp [cmpChars]
  | cons a xs ih =>
    intro y z h1 h2
    cases y with
    | nil => exact absurd (show cmpChars (a :: xs) [] = .gt from rfl) h1
    | cons b ys =>
      cases z with
      | nil => exact absurd (show cmpChars (b :: ys) [] = .gt from rfl) h2
      | cons c zs =>
        rw [show cmpChars (a :: xs) (b :: ys) =
          (cmpNat a.toNat b.toNat).then (cmpChars xs ys) from rfl] at h1
        rw [show cmpChars (b :: ys) (c :: zs) =
          (cmpNat b.toNat c.toNat).then (cmpChars ys zs) from rfl] at h2
        rw [show cmpChars (a :: xs) (c :: zs) =
          (cmpNat a.toNat c.toNat).then (cmpChars xs zs) from rfl]
        rw [then_ne_gt] at h1 h2 ⊢
        rcases h1 with hab | ⟨hab, htail1⟩
        · have h1n : a.toNat < b.toNat := cmpNat_eq_lt.mp hab
          rcases h2 with hbc | ⟨hbc, _⟩
          · have h2n : b.toNat < c.toNat := cmpNat_eq_lt.mp hbc
            exact Or.inl (cmpNat_eq_lt.mpr (by omega))
          · have h2n : b.toNat = c.toNat := cmpNat_eq_eq.mp hbc
            exact Or.inl (cmpNat_eq_lt.mpr (by omega))
        · have h1n : a.toNat = b.toNat := cmpNat_eq_eq.mp hab
          rcases h2 with hbc | ⟨hbc, htail2⟩
          · have h2n : b.toNat < c.toNat := cmpNat_eq_lt.mp hbc
            exact Or.inl (cmpNat_eq_lt.mpr (by omega))
          · have h2n : b.toNat = c.toNat := cmpNat_eq_eq.mp hbc
            exact Or.inr ⟨cmpNat_eq_eq.mpr (by omega), ih htail1 htail2⟩

theorem cmpChars_total : ∀ x y : List Char,
    cmpChars x y ≠ .gt ∨ cmpChars y x ≠ .gt := by
  intro x
  induction x with
  | nil =>
    intro y
    left
    cases y <;> simp [cmpChars]
  | cons a xs ih =>
    intro y
    cases y with
    | nil =>
      right
      simp [cmpChars]
    | cons b ys =>
      rw [show cmpChars (a :: xs) (b :: ys) =
        (cmpNat a.toNat b.toNat).then (cmpChars xs ys) from rfl]
      rw [show cmpChars (b :: ys) (a :: xs) =
        (cmpNat b.toNat a.toNat).then (cmpChars ys xs) from rfl]
      rcases Nat.lt_trichotomy a.toNat b.toNat with h | h | h
      · left
        rw [then_ne_gt]
        exact Or.inl (cmpNat_eq_lt.mpr h)
      · rcases ih ys with hxy | hyx
        · left
          rw [then_ne_gt]
          exact Or.inr ⟨cmpNat_eq_eq.mpr h, hxy⟩
        · right
          rw [then_ne_gt]
          exact Or.inr ⟨cmpNat_eq_eq.mpr h.symm, hyx⟩
      · right
        rw [then_ne_gt]
        exact Or.inl (cmpNat_eq_lt.mpr h)

theorem jailRel_total : ∀ a b : JailStatus, jailRel a b ∨ jailRel b a := by
  intro a b
  unfold jailRel jailCmp
  rcases Nat.lt_trichotomy a.ips.length b.ips.length with h | h | h
  · right
    rw [then_ne_gt]
    exact Or.inl (cmpNat_eq_lt.mpr h)
  · rcases cmpChars_total a.name.data b.name.data with hab | hba
    · left
      rw [then_ne_gt]
      exact Or.inr ⟨cmpNat_eq_eq.mpr h.symm, hab⟩
    · right
      rw [then_ne_gt]
      exact Or.inr ⟨cmpNat_eq_eq.mpr h, hba⟩
  · left
    rw [then_ne_gt]
    exact Or.inl (cmpNat_eq_lt.mpr h)

theorem jailRel_trans : ∀ a b c : JailStatus, jailRel a b → jailRel b c →
    jailRel a c := by
  intro a b c h1 h2
  unfold jailRel jailCmp at h1 h2 ⊢
  rw [then_ne_gt] at h1 h2 ⊢
  rcases h1 with h1a | ⟨h1a, h1b⟩
  · have hba : b.ips.length < a.ips.length := cmpNat_eq_lt.mp h1a
    rcases h2 with h2a | ⟨h2a, _⟩
    · have hcb : c.ips.length < b.ips.length := cmpNat_eq_lt.mp h2a
      exact Or.inl (cmpNat_eq_lt.mpr (by omega))
    · have hcb : c.ips.length = b.ips.length := cmpNat_eq_eq.mp h2a
      exact Or.inl (cmpNat_eq_lt.mpr (by omega))
  · have hba : b.ips.length = a.ips.length := cmpNat_eq_eq.mp h1a
    rcases h2 with h2a | ⟨h2a, h2b⟩
    · have hcb : c.ips.length < b.ips.length := cmpNat_eq_lt.mp h2a
      exact Or.inl (cmpNat_eq_lt.mpr (by omega))
    · have hcb : c.ips.length = b.ips.length := cmpNat_eq_eq.mp h2a
      exact Or.inr ⟨cmpNat_eq_eq.mpr (by omega), cmpChars_le_trans h1b h2b⟩

theorem jailRel_imp_ord {a b : JailStatus} (h : jailRel a b) : jailOrd a b := by
  unfold jailRel jailCmp at h
  rw [then_ne_gt] at h
  rcases h with h | ⟨h, hn⟩
  · exact Or.inl (cmpNat_eq_lt.mp h)
  · exact Or.inr ⟨(cmpNat_eq_eq.mp h).symm, hn⟩

/-- C9: every snapshot returned by a successful fetch is sorted by ban count
descending with ties broken by jail name ascending. -/
theorem claim_C9 (env : Env) (l : List JailStatus)
    (h : fetch_status env = .ok l) : l.Pairwise jailOrd := by
  haveI : IsTotal JailStatus jailRel := ⟨jailRel_total⟩
  haveI : IsTrans JailStatus jailRel := ⟨jailRel_trans⟩
  unfold fetch_status at h
  cases hr : env.runner ["status"] with
  | error e =>
    rw [hr] at h
    exact absurd h (by simp)
  | ok out =>
    rw [hr] at h
    have h' : (match fetchJails env (parse_jail_list out) with
        | Except.error e => (Except.error e : Except String (List JailStatus))
        | Except.ok results => Except.ok (List.insertionSort jailRel results)) =
        Except.ok l := h
    cases hj : fetchJails env (parse_jail_list out) with
    | error e =>
      rw [hj] at h'
      exact absurd h' (by simp)
    | ok results =>
      rw [hj] at h'
      have hl : l = List.insertionSort jailRel results := by
        simpa using h'.symm
      subst hl
      exact List.Pairwise.imp (fun hr => jailRel_imp_ord hr)
        (List.sorted_insertionSort jailRel results)

/-- C9 witness: the theorem applied to a concrete two-jail fetch (jail `b`
with two bans sorts before jail `a` with one). -/
theorem claim_C9_witness : ([jail9b, jail9a] : List JailStatus).Pairwise jailOrd :=
  claim_C9 env9 [jail9b, jail9a] rfl

/-! ## Claim C10 -/

theorem fetch_jail_ok (env : Env) (j : String) (o : String)
    (h : env.runner ["status", j] = .ok o) : ∃ js, fetch_jail env j = .ok js := by
  unfold fetch_jail
  rw [h]
  exact ⟨_, rfl⟩

theorem fetch_jail_err (env : Env) (j : String) (e : String)
    (h : env.runner ["status", j] = .error e) : fetch_jail env j = .error e := by
  unfold fetch_jail
  rw [h]

theorem fetchJails_err (env : Env) (j : String) (e : String) (post : List String)
    (hj : env.runner ["status", j] = .error e) :
    ∀ pre : List String, (∀ j' ∈ pre, ∃ o, env.runner ["status", j'] = .ok o) →
      fetchJails env (pre ++ j :: post) = .error e := by
  intro pre
  induction pre with
  | nil =>
    intro _
    show fetchJails env (j :: post) = .error e
    unfold fetchJails
    rw [fetch_jail_err env j e hj]
  | cons p rest ih =>
    intro hpre
    obtain ⟨o, ho⟩ := hpre p (by simp)
    obtain ⟨js, hjs⟩ := fetch_jail_ok env p o ho
    show fetchJails env (p :: (rest ++ j :: post)) = .error e
    unfold fetchJails
    rw [hjs, ih (fun x hx => hpre x (by simp [hx]))]

theorem fetchJails_ok (env : Env) :
    ∀ l : List String, (∀ j ∈ l, ∃ o, env.runner ["status", j] = .ok o) →
      ∃ res, fetchJails env l = .ok res := by
  intro l
  induction l with
  | nil =>
    intro _
    exact ⟨[], rfl⟩
  | cons j rest ih =>
    intro h
    obtain ⟨o, ho⟩ := h j (by simp)
    obtain ⟨js, hjs⟩ := fetch_jail_ok env j o ho
    obtain ⟨res, hres⟩ := ih (fun x hx => h x (by simp [hx]))
    refine ⟨js :: res, ?_⟩
    unfold fetchJails
    rw [hjs, hres]

/-- C10: when the top-level `status` call succeeds but the per-jail
`status <jail>` call fails for some discovered jail (all jails before it in
discovery order succeeding), the whole fetch fails with that error and no
snapshot is produced; when every per-jail `status` call succeeds, the fetch
succeeds as a whole — the `bantime`, `findtime`, `maxretry` and
`banip --with-time` calls can never fail a jail (they degrade to defaults
or the fallback list by construction of `fetch_jail`). -/
theorem claim_C10 :
    (∀ (env : Env) (out : String) (pre : List String) (j : String)
        (post : List String) (e : String),
      env.runner ["status"] = .ok out →
      parse_jail_list out = pre ++ j :: post →
      (∀ j' ∈ pre, ∃ o, env.runner ["status", j'] = .ok o) →
      env.runner ["status", j] = .error e →
      fetch_status env = .error e)
    ∧ (∀ (env : Env) (out : String),
      env.runner ["status"] = .ok out →
      (∀ j ∈ parse_jail_list out, ∃ o, env.runner ["status", j] = .ok o) →
      ∃ l, fetch_status env = .ok l) := by
  constructor
  · intro env out pre j post e hst hjl hpre hj
    unfold fetch_status
    rw [hst]
    show (match fetchJails env (parse_jail_list out) with
      | Except.error e => (Except.error e : Except String (List JailStatus))
      | Except.ok results => Except.ok (List.insertionSort jailRel results)) = _
    rw [hjl, fetchJails_err env j e post hj pre hpre]
  · intro env out hst hok
    unfold fetch_status
    rw [hst]
    show ∃ l, (match fetchJails env (parse_jail_list out) with
      | Except.error e => (Except.error e : Except String (List JailStatus))
      | Except.ok results => Except.ok (List.insertionSort jailRel results)) =
        Except.ok l
    obtain ⟨res, hres⟩ := fetchJails_ok env (parse_jail_list out) hok
    rw [hres]
    exact ⟨_, rfl⟩

/-- C10 witness: jail `a` is fetched fine but jail `b`'s per-jail status
fails, so the whole fetch fails with that error. -/
theorem claim_C10_witness : fetch_status env10 = .error "down" :=
  claim_C10.1 env10 "Jail list: a, b" ["a"] "b" [] "down" rfl rfl
    (by
      intro j' hj'
      have hj : j' = "a" := by simpa using hj'
      subst hj
      exact ⟨"", rfl⟩)
    rfl

end F2BS
